import Mathlib

/-!
# SimpleProfiler: a verification development

A shallow embedding of `SimpleProfiler.h` (class `SimpleProfiler`) and theorems about it.

Conventions of the embedding.

* `int` is a signed 32-bit and `long`, `long long` are signed 64-bit integers (LP64); values are
  carried as `Int` and every arithmetic result is reduced with `wrapInt` / `wrapLong`.
* `std::vector<T>` is a `List Int`; `operator[]` does no range check, so an access outside the
  vector has no defined result (`Outcome.undefined`).
* The clock is an input: `tic` receives the time point it reads, in nanoseconds.
* A file is the text it holds, `none` when it cannot be opened.
* `output` gives the text written to `COUT` in its default formatting state; `outputOn` carries
  the formatting state of `COUT` from call to call.
-/

namespace SimpleProfiler

/-! ## Machine integers -/

/-- Two's-complement reduction of `x` to a signed integer of `w` bits. -/
def wrapSigned (w : Nat) (x : Int) : Int :=
  (x + 2 ^ (w - 1)) % 2 ^ w - 2 ^ (w - 1)

/-- Value of an `int` expression. -/
def wrapInt (x : Int) : Int := wrapSigned 32 x

/-- Value of a `long` or `long long` expression. -/
def wrapLong (x : Int) : Int := wrapSigned 64 x

/-- Largest `int`. -/
def INT_MAX : Int := 2147483647

/-- Largest `long long`. -/
def LLONG_MAX : Int := 9223372036854775807

/-! ## Outcomes of a call -/

/-- Exceptions of the standard library that the class can let escape. -/
inductive CppException where
  | length_error
  | out_of_range
deriving DecidableEq, Repr

/-- What a call does: it returns, it throws, or the language gives it no meaning. The class has
no `throw` of its own and no error code on `tic`. -/
inductive Outcome (α : Type) where
  | returned (a : α) : Outcome α
  | thrown (e : CppException) : Outcome α
  | undefined : Outcome α
deriving DecidableEq, Repr

/-- Sequencing of calls: the first call that does not return ends the run. -/
def Outcome.bind {α β : Type} : Outcome α → (α → Outcome β) → Outcome β
  | .returned a, f => f a
  | .thrown e, _ => .thrown e
  | .undefined, _ => .undefined

/-- Observation of a returned value. -/
def Outcome.observe {α β : Type} (f : α → Option β) : Outcome α → Option β
  | .returned a => f a
  | .thrown _ => none
  | .undefined => none

/-! ## Vectors -/

/-- `v[k]` read: `k` is converted to `size_type`, so a negative index is out of range too. -/
def vecGet (v : List Int) (k : Int) : Option Int :=
  if 0 ≤ k then v.get? k.toNat else none

/-- `v[k] = x` for an index already known to be in range. -/
def vecSet (v : List Int) (k : Int) (x : Int) : List Int :=
  v.set k.toNat x

/-- `v.resize(n)` with an `int` argument: a negative `n` converts to a `size_type` above
`max_size()` and `resize` throws `std::length_error`; new elements are value-initialised. -/
def resize (v : List Int) (n : Int) : Outcome (List Int) :=
  if n < 0 then .thrown .length_error
  else .returned (v.take n.toNat ++ List.replicate (n.toNat - v.length) 0)

/-- Signed division `x / y` of `long long`: truncating; a zero divisor and `LLONG_MIN / -1` have
no defined result. -/
def cdiv (x y : Int) : Option Int :=
  if y = 0 then none
  else if x = -LLONG_MAX - 1 ∧ y = -1 then none
  else some (Int.tdiv x y)

/-! ## Files -/

/-- The lines that successive `getline(myfile, line)` calls extract from a stream holding `cs`,
until `getline` fails: a line ends at a line break (dropped) or at the end of the text, and a
call that meets the end of the text before any character fails. `cur` is the line being read. -/
def getlinesAux : List Char → List Char → List String
  | [], cur => if cur = [] then [] else [String.mk cur]
  | c :: cs, cur => if c = '\n' then String.mk cur :: getlinesAux cs [] else getlinesAux cs (cur ++ [c])

/-- Lines of a text as the loop `while (getline(myfile, line))` sees them. -/
def getlines (text : String) : List String := getlinesAux text.data []

/-- The files of the machine: the text of each file that can be opened for reading. -/
abbrev Files := String → Option String

/-! ## The class -/

/-- Data members of `SimpleProfiler`. -/
structure Profiler where
  filename : String
  profilerid : Int
  numlines : Int
  average_time : List Int
  call_counter : List Int
  previous_time : Int
deriving DecidableEq, Repr

/-- `SimpleProfiler::readNumlines`: the number of `getline` successes, or `-1` when the file
cannot be opened. -/
def readNumlines (fs : Files) (in_filename : String) : Int :=
  match fs in_filename with
  | some text => (getlines text).foldl (fun in_numlines _ => wrapInt (in_numlines + 1)) 0
  | none => -1

/-- Body shared by the two constructors after `numlines` is known: the two `resize` calls and the
clock read. -/
def constructWith (profilerid : Int) (in_filename : String) (numlines : Int) (now : Int) :
    Outcome Profiler :=
  (resize [] numlines).bind fun average_time =>
  (resize [] numlines).bind fun call_counter =>
  .returned { filename := in_filename, profilerid := profilerid, numlines := numlines,
              average_time := average_time, call_counter := call_counter, previous_time := now }

/-- `SimpleProfiler(std::string in_filename)`: returns the outcome and the new `ObjCounter`. The
counter is incremented before anything can throw. -/
def construct1 (fs : Files) (ObjCounter : Int) (in_filename : String) (now : Int) :
    Outcome Profiler × Int :=
  let profilerid := wrapInt (ObjCounter + 1)
  (constructWith profilerid in_filename (readNumlines fs in_filename) now, profilerid)

/-- `SimpleProfiler(std::string in_filename, int in_numlines)`: returns the outcome and the new
`ObjCounter`. -/
def construct2 (ObjCounter : Int) (in_filename : String) (in_numlines : Int) (now : Int) :
    Outcome Profiler × Int :=
  let profilerid := wrapInt (ObjCounter + 1)
  (constructWith profilerid in_filename in_numlines now, profilerid)

/-- `SimpleProfiler::getNumlines`. -/
def getNumlines (s : Profiler) : Int := s.numlines

/-- `SimpleProfiler::getSizeAverageTime` (`size()` narrowed to `int`). -/
def getSizeAverageTime (s : Profiler) : Int := wrapInt s.average_time.length

/-- `SimpleProfiler::getSizeCallCounter` (`size()` narrowed to `int`). -/
def getSizeCallCounter (s : Profiler) : Int := wrapInt s.call_counter.length

/-- `SimpleProfiler::tic(int current_line)`, with `current_time` the time point read from the
clock. The statements are taken in source order: read `call_counter[current_line-1]` into the
`int n`, store `n+1`, compute the elapsed nanoseconds, store the new average, store the time. -/
def tic (s : Profiler) (current_line : Int) (current_time : Int) : Outcome Profiler :=
  let k := wrapInt (current_line - 1)
  match vecGet s.call_counter k with
  | none => .undefined
  | some c =>
    let n := wrapInt c
    let call_counter := vecSet s.call_counter k (wrapInt (n + 1))
    let new_duration := wrapLong (current_time - s.previous_time)
    match vecGet s.average_time k with
    | none => .undefined
    | some a =>
      match cdiv (wrapLong (wrapLong (a * n) + new_duration)) (wrapInt (n + 1)) with
      | none => .undefined
      | some q =>
        .returned { s with call_counter := call_counter
                           average_time := vecSet s.average_time k q
                           previous_time := current_time }

/-! ## Observations and drivers -/

/-- Call count recorded for source line `line` (cell `line - 1`). -/
def callsAt (s : Profiler) (line : Int) : Option Int := vecGet s.call_counter (line - 1)

/-- Average recorded for source line `line` (cell `line - 1`), in nanoseconds. -/
def averageAt (s : Profiler) (line : Int) : Option Int := vecGet s.average_time (line - 1)

/-- A run of tics, each given as the line and the time point the clock shows. -/
def ticAll : Profiler → List (Int × Int) → Outcome Profiler
  | s, [] => .returned s
  | s, (line, t) :: rest => (tic s line t).bind fun s' => ticAll s' rest

/-- State right after a constructor returned: `numlines` zeroed cells in each vector. -/
def Fresh (s : Profiler) : Prop :=
  0 ≤ s.numlines ∧ s.call_counter = List.replicate s.numlines.toNat 0 ∧
    s.average_time = List.replicate s.numlines.toNat 0

instance (s : Profiler) : Decidable (Fresh s) := by unfold Fresh; infer_instance

/-- Both vectors have `numlines` cells. -/
def Sized (s : Profiler) : Prop :=
  0 ≤ s.numlines ∧ (s.call_counter.length : Int) = s.numlines ∧
    (s.average_time.length : Int) = s.numlines

instance (s : Profiler) : Decidable (Sized s) := by unfold Sized; infer_instance


/-! ## Pure recurrences and sample states -/

/-- The recurrence of `tic` on one cell, as exact integer arithmetic: starting from average `a`
after `n` calls, the average after further calls with elapsed times `ds`. -/
def truncatedMean : Int → Int → List Int → Int
  | a, _, [] => a
  | a, n, d :: ds => truncatedMean ((a * n + d) / (n + 1)) (n + 1) ds

/-- A 3-line profiler in mid-run: line 1 was called once, line 2 twice. -/
def busy3 : Profiler :=
  { filename := "f.cpp", profilerid := 1, numlines := 3,
    average_time := [5, 10, 0], call_counter := [1, 2, 0], previous_time := 100 }

/-- A 10-line profiler as the constructor leaves it, made at time 0. -/
def fresh10 : Profiler :=
  { filename := "test_profiler.cpp", profilerid := 1, numlines := 10,
    average_time := List.replicate 10 0, call_counter := List.replicate 10 0,
    previous_time := 0 }


/-! ## Formatted output -/

/-- Decimal digits of a natural number. -/
def decimal (n : Nat) : String := String.mk (Nat.toDigits 10 n)

/-- Value of a run of decimal digits, most significant first, after the value `acc`. -/
def digitsValue (acc : Nat) (cs : List Char) : Nat :=
  cs.foldl (fun v c => v * 10 + (c.toNat - 48)) acc

/-- `std::to_string` of an integer, also the text `operator<<` gives an integer before padding
(classic locale, no grouping). -/
def to_string (x : Int) : String :=
  if x < 0 then "-" ++ decimal (-x).toNat else decimal x.toNat

/-- Padding of `setw(w)` with `setfill(' ')` and the default right adjustment. -/
def setw (w : Nat) (t : String) : String :=
  String.mk (List.replicate (w - t.length) ' ') ++ t

/-- A finite binary64 value `± mant * 2 ^ expo`. -/
structure Double where
  neg : Bool
  mant : Nat
  expo : Int
deriving DecidableEq, Repr

/-- Number of binary digits of `n`, with `fuel` steps. -/
def bitLengthAux : Nat → Nat → Nat
  | 0, _ => 0
  | fuel + 1, n => if n = 0 then 0 else bitLengthAux fuel (n / 2) + 1

/-- Number of binary digits of `n`. -/
def bitLength (n : Nat) : Nat := bitLengthAux n n

/-- The integer nearest to `num / den`, a tie going to the even one. -/
def roundHalfEven (num den : Nat) : Nat :=
  let q := num / den
  let r := num % den
  if 2 * r < den then q else if den < 2 * r then q + 1 else if q % 2 = 0 then q else q + 1

/-- The binary64 value nearest to `± num / den` (round to nearest, ties to even) for a quotient
in the normal range: the exponent is chosen so that the significand has 53 bits. -/
def Double.nearest (neg : Bool) (num den : Nat) : Double :=
  if num = 0 then ⟨neg, 0, 0⟩
  else
    let e1 : Int := (bitLength num : Int) - (bitLength den : Int) - 52
    let e : Int :=
      if 2 ^ 52 * (den * 2 ^ e1.toNat) ≤ num * 2 ^ (-e1).toNat then e1 else e1 - 1
    ⟨neg, roundHalfEven (num * 2 ^ (-e).toNat) (den * 2 ^ e.toNat), e⟩

/-- The conversion `(double)x` of an integer. -/
def Double.ofInt (x : Int) : Double := Double.nearest (decide (x < 0)) x.natAbs 1

/-- The quotient `x / y` of binary64 values, `y` not zero. -/
def Double.div (x y : Double) : Double :=
  Double.nearest (xor x.neg y.neg) (x.mant * 2 ^ (x.expo - y.expo).toNat)
    (y.mant * 2 ^ (y.expo - x.expo).toNat)

/-- Zero digits in front of `t` up to `p` characters. -/
def zeroPad (p : Nat) (t : String) : String :=
  String.mk (List.replicate (p - t.length) '0') ++ t

/-- Digits of the number `scaled / 10 ^ p` written with `p` decimals: the integer part, then
the point and the decimals when `p` is not zero. -/
def fixedText (scaled p : Nat) : String :=
  decimal (scaled / 10 ^ p) ++
    (if p = 0 then "" else "." ++ zeroPad p (decimal (scaled % 10 ^ p)))

/-- Text of a binary64 value under `std::fixed` and `setprecision(p)` (the `%.*f` conversion):
the sign, then the exact value rounded to `p` decimals, ties to even. -/
def Double.fixed (p : Nat) (x : Double) : String :=
  (if x.neg then "-" else "") ++
    fixedText (roundHalfEven (x.mant * 2 ^ x.expo.toNat * 10 ^ p) (2 ^ (-x.expo).toNat)) p

/-- The locals `s_name`, `divideby`, `outdigits` of `output`. -/
structure TimeUnit where
  s_name : String
  divideby : Int
  outdigits : Nat
deriving DecidableEq, Repr

/-- Width `outints` of the value column. -/
def outints : Nat := 13

/-- The unit selection at the head of `output`: the default, then the three `if`s in turn. -/
def timeUnit (type : Int) : TimeUnit :=
  let u : TimeUnit := ⟨"Millisecs ", 1000000, 6⟩
  let u := if type = 0 then ⟨"Nanosecs ", 1, 0⟩ else u
  let u := if type = 1 then ⟨"Microsecs ", 1000, 3⟩ else u
  if type = 3 then ⟨"Secs ", 1000000000, 6⟩ else u

/-- Text of `(double)average / divideby` under `std::fixed` and `setprecision(outdigits)`. -/
def valueText (u : TimeUnit) (average : Int) : String :=
  Double.fixed u.outdigits (Double.div (Double.ofInt average) (Double.ofInt u.divideby))

/-- The value as it is written, in a field of `outints` characters. -/
def valueField (u : TimeUnit) (average : Int) : String :=
  setw outints (valueText u average)

/-- The three columns written for a line that was called: line number, calls, value. -/
def columns (u : TimeUnit) (i calls average : Int) : String :=
  "Line " ++ setw 4 (to_string i) ++ " | " ++ "Calls " ++ setw 10 (to_string calls) ++ " | " ++
    u.s_name ++ valueField u average

/-- One row of the console report, ended by `std::endl`. -/
def reportRow (u : TimeUnit) (i calls average : Int) : String :=
  columns u i calls average ++ " |" ++ "\n"

/-- The loop `for (int i = 1; i <= numlines; ++i)` of the report, from index `i` with `todo`
rounds left: the rows written, in order. -/
def reportLoop (s : Profiler) (u : TimeUnit) : Nat → Int → Outcome (List String)
  | 0, _ => .returned []
  | todo + 1, i =>
    match vecGet s.call_counter (i - 1) with
    | none => .undefined
    | some calls =>
      if calls > 0 then
        match vecGet s.average_time (i - 1) with
        | none => .undefined
        | some average =>
          (reportLoop s u todo (i + 1)).bind fun rows =>
            .returned (reportRow u i calls average :: rows)
      else reportLoop s u todo (i + 1)

/-- Rows of the console report. With `numlines = INT_MAX` the counter `i` would overflow. -/
def reportRows (s : Profiler) (u : TimeUnit) : Outcome (List String) :=
  if INT_MAX ≤ s.numlines then .undefined else reportLoop s u s.numlines.toNat 1

/-- Name of the annotated copy. -/
def outfileName (s : Profiler) : String :=
  s.filename ++ "_prf" ++ to_string s.profilerid ++ ".h"

/-- Comment written in front of source line `i` in the annotated copy. -/
def commentPrefix (s : Profiler) (u : TimeUnit) (i : Int) : Outcome String :=
  match vecGet s.call_counter (i - 1) with
  | none => .undefined
  | some calls =>
    if calls > 0 then
      match vecGet s.average_time (i - 1) with
      | none => .undefined
      | some average => .returned ("/* " ++ columns u i calls average ++ " | */ ")
    else
      .returned ("/* Line " ++ setw 4 (to_string i) ++ " |                  |  " ++
        String.mk (List.replicate (outints + u.s_name.length) ' ') ++ "| */ ")

/-- The loop `while (getline(myfile, line))` of the annotated copy, `i` being the number of lines
already copied: the lines written, in order, each without its closing `std::endl`. -/
def annotateLoop (s : Profiler) (u : TimeUnit) : List String → Int → Outcome (List String)
  | [], _ => .returned []
  | line :: rest, i =>
    (commentPrefix s u (wrapInt (i + 1))).bind fun pre =>
      (annotateLoop s u rest (wrapInt (i + 1))).bind fun out =>
        .returned ((pre ++ line) :: out)

/-- Position of the first line break of `t`, if any. -/
def findNewline (t : List Char) : Option Nat :=
  if t.indexOf '\n' < t.length then some (t.indexOf '\n') else none

/-- The footer block: separator, column titles with the time of the run, separator. -/
def footer (u : TimeUnit) (str_end_time : String) : String :=
  let sep_line := "/* --------------------------------------------------------------------------------------------------------- */"
  sep_line ++ "\n/*           | Call Counter     | Average Time " ++
    String.mk (List.replicate (outints + u.s_name.length - 12) ' ') ++
    "|  SimpleProfiler run at " ++ str_end_time ++
    String.mk (List.replicate (10 - u.s_name.length) ' ') ++ "  */\n" ++ sep_line

/-- What `output` leaves behind: the text sent to `COUT` and, when a copy is asked for, the name
and text of the file written. -/
structure Effects where
  cout : String
  outfile : Option (String × String)
deriving DecidableEq, Repr

/-- `SimpleProfiler::output(bool annotate, bool print, int type)`. `ctime_text` is the text
`ctime` gives for the time of the call. -/
def output (s : Profiler) (fs : Files) (annotate print : Bool) (type : Int)
    (ctime_text : String) : Outcome Effects :=
  let u := timeUnit type
  (if print then
      (reportRows s u).bind fun rows =>
        .returned ("\nTIC print: " ++ s.filename ++ "\n" ++ String.join rows)
    else .returned "").bind fun printed =>
  if annotate then
    let outfile := outfileName s
    let cout := printed ++ "\nTIC annotate: " ++ s.filename ++ " --> " ++ outfile ++ "\n"
    match fs s.filename with
    | none => .returned { cout := cout, outfile := some (outfile, "") }
    | some text =>
      (annotateLoop s u (getlines text) 0).bind fun out =>
        match findNewline ctime_text.data with
        | none => .thrown .out_of_range
        | some pos =>
          let str_end_time := String.mk (ctime_text.data.eraseIdx pos)
          .returned { cout := cout
                      outfile := some (outfile,
                        String.join (out.map fun l => l ++ "\n") ++ footer u str_end_time) }
  else .returned { cout := printed, outfile := none }

/-! ## Constructor calls of a process -/

/-- A constructor call: the file name, the line count when the two-argument constructor is
used, and the time the clock shows. -/
structure Construction where
  in_filename : String
  in_numlines : Option Int
  now : Int
deriving DecidableEq, Repr

/-- One constructor call: the outcome and the new `ObjCounter`. -/
def construct (fs : Files) (ObjCounter : Int) (c : Construction) : Outcome Profiler × Int :=
  match c.in_numlines with
  | none => construct1 fs ObjCounter c.in_filename c.now
  | some in_numlines => construct2 ObjCounter c.in_filename in_numlines c.now

/-- The constructor calls of a process in order, from the counter value `ObjCounter`. -/
def constructAll (fs : Files) : Int → List Construction → List (Outcome Profiler)
  | _, [] => []
  | ObjCounter, c :: cs =>
    (construct fs ObjCounter c).1 :: constructAll fs (construct fs ObjCounter c).2 cs

/-- Initial value of the static member: `int SimpleProfiler::ObjCounter = 0;`. -/
def ObjCounter0 : Int := 0


/-- A 10-line profiler after one `tic(3)` that came 2,000,000 ns after construction. -/
def ticked3 : Profiler :=
  { filename := "test_profiler.cpp", profilerid := 1, numlines := 10,
    average_time := [0, 0, 2000000, 0, 0, 0, 0, 0, 0, 0],
    call_counter := [0, 0, 1, 0, 0, 0, 0, 0, 0, 0], previous_time := 2000000 }

/-- The first profiler of `test_profiler.cpp`, as constructed over a two-line file. -/
def myprofiler1 : Profiler :=
  { filename := "test_profiler.cpp", profilerid := 1, numlines := 2,
    average_time := [0, 0], call_counter := [0, 0], previous_time := 7 }

/-- The second profiler of `test_profiler.cpp`, constructed after the first for the same file. -/
def myprofiler2 : Profiler :=
  { filename := "test_profiler.cpp", profilerid := 2, numlines := 2,
    average_time := [0, 0], call_counter := [0, 0], previous_time := 9 }

/-- A 10000-line profiler in which only line 3 was called, once, for 2,000,000 ns. -/
def long10000 : Profiler :=
  { filename := "long.cpp", profilerid := 1, numlines := 10000,
    average_time := [0, 0, 2000000] ++ List.replicate 9997 0,
    call_counter := [0, 0, 1] ++ List.replicate 9997 0, previous_time := 2000000 }

/-! ## The console stream -/

set_option maxRecDepth 100000


theorem wrapInt_eq (x : Int) (h1 : -2147483648 ≤ x) (h2 : x ≤ 2147483647) : wrapInt x = x := by
  unfold wrapInt wrapSigned
  norm_num
  omega

theorem vecGet_set_same (v : List Int) (k x : Int) (h0 : 0 ≤ k) (hk : k < v.length) :
    vecGet (vecSet v k x) k = some x := by
  unfold vecGet vecSet
  have : k.toNat < v.length := by omega
  simp [h0, List.getElem?_set, this]

theorem vecGet_set_other (v : List Int) (k j x : Int) (h0 : 0 ≤ k) (hj : 0 ≤ j) (hne : j ≠ k) :
    vecGet (vecSet v k x) j = vecGet v j := by
  unfold vecGet vecSet
  have : k.toNat ≠ j.toNat := by omega
  simp [hj, List.getElem?_set, this]

theorem vecGet_isSome (v : List Int) (k : Int) (h0 : 0 ≤ k) (hk : k < v.length) :
    ∃ x, vecGet v k = some x := by
  unfold vecGet
  have : k.toNat < v.length := by omega
  simp [h0, List.getElem?_eq_getElem, this]

theorem vecGet_none (v : List Int) (k : Int) (h : k < 0 ∨ (v.length : Int) ≤ k) :
    vecGet v k = none := by
  unfold vecGet
  rcases h with h | h
  · simp [show ¬ (0 ≤ k) by omega]
  · have : v.length ≤ k.toNat := by omega
    by_cases h0 : 0 ≤ k <;> simp [h0, List.getElem?_eq_none, this]

theorem vecGet_lt (v : List Int) (k x : Int) (h : vecGet v k = some x) :
    0 ≤ k ∧ k < v.length := by
  unfold vecGet at h
  by_cases h0 : 0 ≤ k
  · simp only [h0, if_true] at h
    have := List.get?_eq_some.mp h
    obtain ⟨hl, -⟩ := this
    omega
  · simp [h0] at h

/-- Shape of the state `tic` returns on a cell in range with a count in `[0, INT_MAX)`. -/
theorem tic_shape (s : Profiler) (i t n a : Int)
    (hi : 1 ≤ i) (hiM : i ≤ INT_MAX)
    (hc : callsAt s i = some n) (ha : averageAt s i = some a)
    (hn0 : 0 ≤ n) (hn : n < INT_MAX) :
    ∃ q, tic s i t = .returned { s with
      call_counter := vecSet s.call_counter (i - 1) (n + 1)
      average_time := vecSet s.average_time (i - 1) q
      previous_time := t } := by
  unfold INT_MAX at hiM hn
  unfold callsAt at hc
  unfold averageAt at ha
  have hk : wrapInt (i - 1) = i - 1 := wrapInt_eq _ (by omega) (by omega)
  have hwn : wrapInt n = n := wrapInt_eq _ (by omega) (by omega)
  have hwn1 : wrapInt (n + 1) = n + 1 := wrapInt_eq _ (by omega) (by omega)
  unfold tic
  simp only [hk, hc, ha, hwn, hwn1]
  unfold cdiv
  rw [if_neg (by omega), if_neg (by omega)]
  exact ⟨_, rfl⟩

theorem truncatedMean_nonneg (ds : List Int) : ∀ (a n : Int), 0 ≤ a → 0 ≤ n →
    (∀ d ∈ ds, 0 ≤ d) → 0 ≤ truncatedMean a n ds := by
  induction ds with
  | nil => intro a n ha _ _; simpa [truncatedMean] using ha
  | cons d ds ih =>
    intro a n ha hn hd
    unfold truncatedMean
    have hd0 : 0 ≤ d := hd d (by simp)
    have : 0 ≤ a * n := mul_nonneg ha hn
    exact ih _ _ (Int.ediv_nonneg (by omega) (by omega)) (by omega)
      (fun x hx => hd x (by simp [hx]))

theorem fresh_cells (s : Profiler) (hs : Fresh s) (i : Int) (hi : 1 ≤ i) (hiL : i ≤ s.numlines) :
    callsAt s i = some 0 ∧ averageAt s i = some 0 := by
  obtain ⟨h0, hc, ha⟩ := hs
  have hlt : (i - 1).toNat < s.numlines.toNat := by omega
  unfold callsAt averageAt vecGet
  rw [hc, ha, if_pos (by omega)]
  simp only [List.get?_eq_getElem?, List.getElem?_replicate, if_pos hlt, and_self]

theorem fresh_sized (s : Profiler) (hs : Fresh s) : Sized s := by
  obtain ⟨h0, hc, ha⟩ := hs
  refine ⟨h0, ?_, ?_⟩
  · rw [hc, List.length_replicate]; omega
  · rw [ha, List.length_replicate]; omega

theorem sized_cells (s : Profiler) (hs : Sized s) (i : Int) (hi : 1 ≤ i) (hiL : i ≤ s.numlines) :
    (∃ n, callsAt s i = some n) ∧ ∃ a, averageAt s i = some a := by
  obtain ⟨_, hc, ha⟩ := hs
  exact ⟨vecGet_isSome _ _ (by omega) (by omega), vecGet_isSome _ _ (by omega) (by omega)⟩

/-- The two-argument constructor with a non-negative line count returns a fresh profiler. -/
theorem construct2_fresh (c : Int) (f : String) (L now : Int) (hL : 0 ≤ L) :
    ∃ s, (construct2 c f L now).1 = .returned s ∧ Fresh s ∧ s.numlines = L ∧
      s.filename = f ∧ s.profilerid = wrapInt (c + 1) ∧ s.previous_time = now := by
  unfold construct2 constructWith resize
  simp only [if_neg (show ¬ L < 0 by omega), Outcome.bind]
  refine ⟨_, rfl, ?_, rfl, rfl, rfl, rfl⟩
  unfold Fresh
  simp [hL]


/-- A run of tics keeps the frame and counts the tics of every line. `c0` gives the counts
before the run. -/
theorem ticAll_counts (ts : List (Int × Int)) :
    ∀ (s : Profiler) (c0 : Int → Int), Sized s → s.numlines ≤ INT_MAX →
      (∀ i, 1 ≤ i → i ≤ s.numlines →
        callsAt s i = some (c0 i) ∧ 0 ≤ c0 i ∧ c0 i + (ts.map Prod.fst).count i ≤ INT_MAX) →
      (∀ p ∈ ts, 1 ≤ p.1 ∧ p.1 ≤ s.numlines) →
      ∃ s', ticAll s ts = .returned s' ∧ s'.numlines = s.numlines ∧
        ∀ i, 1 ≤ i → i ≤ s.numlines → callsAt s' i = some (c0 i + (ts.map Prod.fst).count i) := by
  induction ts with
  | nil =>
    intro s c0 _ _ h _
    refine ⟨s, rfl, rfl, fun i h1 h2 => ?_⟩
    simpa using (h i h1 h2).1
  | cons p ts ih =>
    intro s c0 hs hL h hin
    obtain ⟨l, t⟩ := p
    have hl := hin (l, t) (by simp)
    simp only at hl
    obtain ⟨hc, hc0, hcM⟩ := h l hl.1 hl.2
    obtain ⟨-, ⟨a, ha⟩⟩ := sized_cells s hs l hl.1 hl.2
    have hcnt : 1 ≤ (((l, t) :: ts).map Prod.fst).count l := by
      simp
    have hn : c0 l < INT_MAX := by
      have : (1 : Int) ≤ ((((l, t) :: ts).map Prod.fst).count l : Nat) := by exact_mod_cast hcnt
      omega
    obtain ⟨q, htic⟩ := tic_shape s l t (c0 l) a hl.1 (by omega) hc ha hc0 hn
    have hk := vecGet_lt _ _ _ hc
    have hk' := vecGet_lt _ _ _ ha
    obtain ⟨h0, hlc, hla⟩ := hs
    obtain ⟨s', hrun, hnl, hcalls⟩ := ih
      { s with call_counter := vecSet s.call_counter (l - 1) (c0 l + 1)
               average_time := vecSet s.average_time (l - 1) q
               previous_time := t }
      (fun i => if i = l then c0 l + 1 else c0 i)
      ⟨h0, by simpa [vecSet] using hlc, by simpa [vecSet] using hla⟩ hL
      (by
        intro i h1 h2
        obtain ⟨hci, hci0, hciM⟩ := h i h1 h2
        simp only [List.map_cons, List.count_cons] at hciM
        by_cases hil : i = l
        · subst hil
          simp only [if_true]
          refine ⟨vecGet_set_same _ _ _ hk.1 hk.2, by omega, ?_⟩
          simp only [beq_self_eq_true, if_true, Nat.cast_add, Nat.cast_one] at hciM
          omega
        · simp only [if_neg hil]
          refine ⟨?_, hci0, ?_⟩
          · have := vecGet_set_other s.call_counter (l - 1) (i - 1) (c0 l + 1) hk.1 (by omega)
              (by omega)
            unfold callsAt at hci ⊢
            simpa [this] using hci
          · have hb : (l == i) = false := by simpa using fun h => hil h.symm
            simp only [hb] at hciM
            simpa using hciM)
      (fun p hp => hin p (by simp [hp]))
    refine ⟨s', ?_, hnl, ?_⟩
    · unfold ticAll
      rw [htic]
      exact hrun
    · intro i h1 h2
      rw [hcalls i h1 h2]
      simp only [List.map_cons, List.count_cons]
      by_cases hil : i = l
      · subst hil
        simp only [if_true, beq_self_eq_true, Nat.cast_add, Nat.cast_one]
        congr 1; ring
      · have hb : (l == i) = false := by simpa using fun h => hil h.symm
        simp [hil, hb]


/-! ## Claims about `tic` -/

/-- C2: on a fresh profiler, after any run of tics whose lines all lie in `[1, numlines]`, with at
most `INT_MAX` (fewer than `2^31`) tics on each line, the call count of every line `i` is the
number of tics of the run made on line `i`. -/
theorem call_count_eq_number_of_tics (s : Profiler) (ts : List (Int × Int))
    (hs : Fresh s) (hL : s.numlines ≤ INT_MAX)
    (hin : ∀ p ∈ ts, 1 ≤ p.1 ∧ p.1 ≤ s.numlines)
    (hfew : ∀ p ∈ ts, ((ts.map Prod.fst).count p.1 : Int) ≤ INT_MAX) :
    ∃ s', ticAll s ts = .returned s' ∧
      ∀ i, 1 ≤ i → i ≤ s.numlines → callsAt s' i = some ((ts.map Prod.fst).count i : Int) := by
  obtain ⟨s', hrun, -, hcalls⟩ := ticAll_counts ts s (fun _ => 0) (fresh_sized s hs) hL
    (by
      intro i h1 h2
      refine ⟨(fresh_cells s hs i h1 h2).1, le_refl _, ?_⟩
      by_cases hmem : i ∈ ts.map Prod.fst
      · obtain ⟨p, hp, rfl⟩ := List.mem_map.mp hmem
        simpa using hfew p hp
      · rw [List.count_eq_zero_of_not_mem hmem]
        simp [INT_MAX])
    hin
  refine ⟨s', hrun, fun i h1 h2 => ?_⟩
  rw [hcalls i h1 h2]
  simp

/-- C2 (witness): the ten tics of `test_profiler.cpp`, five on line 33 and five on line 38. -/
theorem call_count_eq_number_of_tics_witness :
    ∃ s', ticAll
        { filename := "test_profiler.cpp", profilerid := 1, numlines := 50,
          average_time := List.replicate 50 0, call_counter := List.replicate 50 0,
          previous_time := 0 }
        [(33, 5), (38, 1005), (33, 1010), (38, 2010), (33, 2015), (38, 3015), (33, 3020),
          (38, 4020), (33, 4025), (38, 5025)] = .returned s' ∧
      ∀ i, 1 ≤ i → i ≤ 50 → callsAt s' i =
        some ((([(33, 5), (38, 1005), (33, 1010), (38, 2010), (33, 2015), (38, 3015), (33, 3020),
          (38, 4020), (33, 4025), (38, 5025)] : List (Int × Int)).map Prod.fst).count i : Int) :=
  call_count_eq_number_of_tics _ _ (by decide) (by decide) (by decide) (by decide)

/-- C4: on a profiler with `numlines` cells in each vector, `tic(i)` with `i` in `[1, numlines]`
on a cell whose count `n` satisfies `0 ≤ n < INT_MAX` returns a state in which every other line
`j` in `[1, numlines]` has the call count and the average it had before, and the file name, the
line count, the profiler id and the sizes of both vectors are unchanged. -/
theorem tic_frame (s : Profiler) (i t n : Int)
    (hs : Sized s) (hi : 1 ≤ i) (hiL : i ≤ s.numlines) (hL : s.numlines ≤ INT_MAX)
    (hc : callsAt s i = some n) (hn0 : 0 ≤ n) (hn : n < INT_MAX) :
    ∃ s', tic s i t = .returned s' ∧
      (∀ j, 1 ≤ j → j ≤ s.numlines → j ≠ i →
        callsAt s' j = callsAt s j ∧ averageAt s' j = averageAt s j) ∧
      s'.filename = s.filename ∧ s'.numlines = s.numlines ∧ s'.profilerid = s.profilerid ∧
      s'.call_counter.length = s.call_counter.length ∧
      s'.average_time.length = s.average_time.length := by
  obtain ⟨-, ⟨a, ha⟩⟩ := sized_cells s hs i hi hiL
  obtain ⟨q, htic⟩ := tic_shape s i t n a hi (by omega) hc ha hn0 hn
  refine ⟨_, htic, ?_, rfl, rfl, rfl, by simp [vecSet], by simp [vecSet]⟩
  intro j h1 _ hne
  exact ⟨vecGet_set_other _ _ _ _ (by omega) (by omega) (by omega),
    vecGet_set_other _ _ _ _ (by omega) (by omega) (by omega)⟩

/-- C4 (witness): a tic on line 2 of a 3-line profiler leaves lines 1 and 3 as they were. -/
theorem tic_frame_witness :
    ∃ s', tic busy3 2 107 = .returned s' ∧
      (∀ j, 1 ≤ j → j ≤ 3 → j ≠ 2 →
        callsAt s' j = callsAt busy3 j ∧
        averageAt s' j = averageAt busy3 j) ∧
      s'.filename = "f.cpp" ∧ s'.numlines = 3 ∧ s'.profilerid = 1 ∧
      s'.call_counter.length = 3 ∧ s'.average_time.length = 3 :=
  tic_frame busy3 2 107 2
    (by decide) (by decide) (by decide) (by decide) (by decide) (by decide) (by decide)

/-- C5 (counterexample): on a fresh 10-line profiler neither `tic(11)` nor `tic(0)` is rejected
with an error that leaves the state as it was: each call indexes the vectors outside their
bounds and has no defined result; no exception is thrown and the old state is not returned. -/
theorem tic_out_of_range_not_rejected :
    (construct2 0 "test_profiler.cpp" 10 0).1.bind (fun s => tic s 11 5) = .undefined ∧
      (construct2 0 "test_profiler.cpp" 10 0).1.bind (fun s => tic s 0 5) = .undefined ∧
      (∀ e, (construct2 0 "test_profiler.cpp" 10 0).1.bind (fun s => tic s 11 5) ≠ .thrown e) ∧
      (construct2 0 "test_profiler.cpp" 10 0).1.bind (fun s => tic s 11 5)
        ≠ (construct2 0 "test_profiler.cpp" 10 0).1 := by
  refine ⟨by decide, by decide, ?_, by decide⟩
  intro e
  cases e <;> decide

/-- C5 (amended): `tic` makes no range check and has no error to signal; on a profiler with
`numlines` cells in each vector, a call with an `int` line index outside `[1, numlines]` reads
`call_counter` outside its bounds, which has no defined behaviour. -/
theorem tic_out_of_range_undefined (s : Profiler) (i t : Int)
    (hs : Sized s) (hL : s.numlines ≤ INT_MAX)
    (himin : -INT_MAX - 1 ≤ i) (himax : i ≤ INT_MAX)
    (hout : i < 1 ∨ s.numlines < i) :
    tic s i t = .undefined := by
  obtain ⟨h0, hlc, -⟩ := hs
  unfold INT_MAX at hL himin himax
  have hnone : vecGet s.call_counter (wrapInt (i - 1)) = none := by
    apply vecGet_none
    by_cases hmin : i = -2147483648
    · right
      subst hmin
      have : wrapInt (-2147483648 - 1) = 2147483647 := by decide
      rw [this]; omega
    · rw [wrapInt_eq _ (by omega) (by omega)]
      omega
  unfold tic
  simp only [hnone]

/-- C5 (witness): `tic(11)` on a 10-line profiler. -/
theorem tic_out_of_range_undefined_witness :
    tic fresh10 11 5 = .undefined :=
  tic_out_of_range_undefined _ 11 5 (by decide) (by decide) (by decide) (by decide) (by decide)


/-! ## The console report -/

/-- The report loop over `todo` lines from line `i` returns one row for each cell with a
positive count, in increasing order of line. -/
theorem reportLoop_rows (s : Profiler) (u : TimeUnit) (todo : Nat) :
    ∀ i : Int, 1 ≤ i → i - 1 + todo ≤ s.call_counter.length →
      i - 1 + todo ≤ s.average_time.length →
      ∃ cells : List (Int × Int × Int),
        reportLoop s u todo i = .returned (cells.map fun c => reportRow u c.1 c.2.1 c.2.2) ∧
        (cells.map Prod.fst).Sorted (· < ·) ∧
        ∀ j c a, (j, c, a) ∈ cells ↔
          (i ≤ j ∧ j < i + todo ∧ callsAt s j = some c ∧ averageAt s j = some a ∧ 0 < c) := by
  induction todo with
  | zero =>
    intro i _ _ _
    refine ⟨[], rfl, by simp, ?_⟩
    intro j c a
    simp only [List.not_mem_nil, false_iff, not_and]
    intro h1 h2
    simp only [Nat.cast_zero, add_zero] at h2
    omega
  | succ todo ih =>
    intro i hi hc ha
    push_cast at hc ha
    obtain ⟨cells, hrun, hsorted, hmem⟩ := ih (i + 1) (by omega) (by omega) (by omega)
    obtain ⟨calls, hcalls⟩ := vecGet_isSome s.call_counter (i - 1) (by omega) (by omega)
    obtain ⟨average, haverage⟩ := vecGet_isSome s.average_time (i - 1) (by omega) (by omega)
    have hlow : ∀ x ∈ cells.map Prod.fst, i < x := by
      intro x hx
      obtain ⟨⟨j, c, a⟩, hjc, rfl⟩ := List.mem_map.mp hx
      have := (hmem j c a).mp hjc
      simp only
      omega
    by_cases hpos : calls > 0
    · refine ⟨(i, calls, average) :: cells, ?_, ?_, ?_⟩
      · unfold reportLoop
        simp only [hcalls, haverage, hpos, if_true, hrun, Outcome.bind, List.map_cons]
      · simp only [List.map_cons, List.sorted_cons]
        exact ⟨hlow, hsorted⟩
      · intro j c a
        simp only [List.mem_cons, Prod.mk.injEq, hmem j c a]
        constructor
        · rintro (⟨rfl, rfl, rfl⟩ | ⟨h1, h2, h3, h4, h5⟩)
          · exact ⟨le_refl _, by push_cast; omega, hcalls, haverage, hpos⟩
          · exact ⟨by omega, by push_cast; omega, h3, h4, h5⟩
        · rintro ⟨h1, h2, h3, h4, h5⟩
          push_cast at h2
          by_cases hji : j = i
          · subst hji
            left
            unfold callsAt at h3
            unfold averageAt at h4
            rw [hcalls] at h3
            rw [haverage] at h4
            exact ⟨rfl, (Option.some.inj h3).symm, (Option.some.inj h4).symm⟩
          · right
            exact ⟨by omega, by omega, h3, h4, h5⟩
    · refine ⟨cells, ?_, hsorted, ?_⟩
      · unfold reportLoop
        simp only [hcalls, hpos, if_false, hrun]
      · intro j c a
        rw [hmem j c a]
        constructor
        · rintro ⟨h1, h2, h3, h4, h5⟩
          exact ⟨by omega, by push_cast; omega, h3, h4, h5⟩
        · rintro ⟨h1, h2, h3, h4, h5⟩
          push_cast at h2
          have hji : j ≠ i := by
            rintro rfl
            unfold callsAt at h3
            rw [hcalls] at h3
            have := Option.some.inj h3
            omega
          exact ⟨by omega, by omega, h3, h4, h5⟩

/-- C6: for every profiler with `numlines` cells in each vector (`numlines < INT_MAX`) and every
unit selector, `output(false, true, type)` writes the title and then exactly one row for each
line `j` in `[1, numlines]` whose call count is positive, none for the other lines; the rows come
in increasing order of line and each is made of the line number, its call count and its average
divided by the divisor of the unit. -/
theorem report_has_one_row_per_called_line (s : Profiler) (fs : Files) (type : Int)
    (ctime_text : String) (hs : Sized s) (hL : s.numlines < INT_MAX) :
    ∃ cells : List (Int × Int × Int),
      output s fs false true type ctime_text = .returned
        { cout := "\nTIC print: " ++ s.filename ++ "\n" ++
            String.join (cells.map fun c => reportRow (timeUnit type) c.1 c.2.1 c.2.2)
          outfile := none } ∧
      (cells.map Prod.fst).Sorted (· < ·) ∧
      ∀ j c a, (j, c, a) ∈ cells ↔
        (1 ≤ j ∧ j ≤ s.numlines ∧ callsAt s j = some c ∧ averageAt s j = some a ∧ 0 < c) := by
  obtain ⟨h0, hlc, hla⟩ := hs
  obtain ⟨cells, hrun, hsorted, hmem⟩ := reportLoop_rows s (timeUnit type) s.numlines.toNat 1
    (le_refl _) (by omega) (by omega)
  refine ⟨cells, ?_, hsorted, ?_⟩
  · unfold output reportRows
    simp only [if_true, if_neg (show ¬ INT_MAX ≤ s.numlines by omega), hrun, Outcome.bind]
    rfl
  · intro j c a
    rw [hmem j c a]
    constructor
    · rintro ⟨h1, h2, h3⟩
      exact ⟨h1, by omega, h3⟩
    · rintro ⟨h1, h2, h3⟩
      exact ⟨h1, by omega, h3⟩


/-- C6 (witness): a 10-line profiler after a single `tic(3)` with 2,000,000 ns elapsed reports in
milliseconds one row: line 3, calls 1, value 2.000000. -/
theorem report_has_one_row_per_called_line_witness :
    (∃ cells : List (Int × Int × Int),
      output ticked3 (fun _ => none) false true 2 "" = .returned
        { cout := "\nTIC print: " ++ ticked3.filename ++ "\n" ++
            String.join (cells.map fun c => reportRow (timeUnit 2) c.1 c.2.1 c.2.2)
          outfile := none } ∧
      (cells.map Prod.fst).Sorted (· < ·) ∧
      ∀ j c a, (j, c, a) ∈ cells ↔
        (1 ≤ j ∧ j ≤ ticked3.numlines ∧ callsAt ticked3 j = some c ∧
          averageAt ticked3 j = some a ∧ 0 < c)) ∧
      (construct2 0 "test_profiler.cpp" 10 0).1.bind (fun s => tic s 3 2000000)
        = .returned ticked3 ∧
      output ticked3 (fun _ => none) false true 2 "" = .returned
        { cout := "\nTIC print: test_profiler.cpp\nLine    3 | Calls          1 | Millisecs      2.000000 |\n"
          outfile := none } :=
  ⟨report_has_one_row_per_called_line ticked3 (fun _ => none) 2 "" (by decide) (by decide),
    by decide, by decide⟩

/-! ## The annotated copy -/

theorem string_append_assoc3 (a b c d : String) : a ++ (b ++ c) ++ d = a ++ b ++ c ++ d := by
  simp [String.append_assoc]

/-- The comment in front of a line whose cell exists opens with `/* Line ` and closes with
`| */ `. -/
theorem commentPrefix_shape (s : Profiler) (u : TimeUnit) (i : Int) (hi : 1 ≤ i)
    (hc : i ≤ s.call_counter.length) (ha : i ≤ s.average_time.length) :
    ∃ mid, commentPrefix s u i = .returned ("/* Line " ++ mid ++ "| */ ") := by
  obtain ⟨calls, hcalls⟩ := vecGet_isSome s.call_counter (i - 1) (by omega) (by omega)
  obtain ⟨average, haverage⟩ := vecGet_isSome s.average_time (i - 1) (by omega) (by omega)
  unfold commentPrefix
  simp only [hcalls, haverage]
  by_cases hpos : calls > 0
  · simp only [hpos, if_true]
    refine ⟨setw 4 (to_string i) ++ " | " ++ "Calls " ++ setw 10 (to_string calls) ++ " | " ++
      u.s_name ++ valueField u average ++ " ", ?_⟩
    congr 1
    unfold columns
    have e1 : ("/* Line " : String) = "/* " ++ "Line " := by decide
    have e2 : (" | */ " : String) = " " ++ "| */ " := by decide
    rw [e1, e2]
    simp only [String.append_assoc]
  · simp only [hpos, if_false]
    exact ⟨_, rfl⟩

/-- The copy loop writes one line for each line read: the comment of its line number, then the
line as read. -/
theorem annotateLoop_lines (s : Profiler) (u : TimeUnit) (lines : List String) :
    ∀ i : Int, 0 ≤ i → i + lines.length ≤ s.call_counter.length →
      i + lines.length ≤ s.average_time.length → i + lines.length ≤ INT_MAX →
      ∃ out : List String, annotateLoop s u lines i = .returned out ∧
        out.length = lines.length ∧
        ∀ j (hj : j < lines.length), ∃ mid,
          commentPrefix s u (i + j + 1) = .returned ("/* Line " ++ mid ++ "| */ ") ∧
          out[j]? = some ("/* Line " ++ mid ++ "| */ " ++ lines[j]) := by
  induction lines with
  | nil =>
    intro i _ _ _ _
    exact ⟨[], rfl, rfl, fun j hj => absurd hj (by simp)⟩
  | cons line rest ih =>
    intro i hi hc ha hM
    simp only [List.length_cons] at hc ha hM
    push_cast at hc ha hM
    unfold INT_MAX at hM
    have hw : wrapInt (i + 1) = i + 1 := wrapInt_eq _ (by omega) (by omega)
    obtain ⟨mid, hmid⟩ := commentPrefix_shape s u (i + 1) (by omega) (by omega) (by omega)
    obtain ⟨out, hrun, hlen, hout⟩ := ih (i + 1) (by omega) (by omega) (by omega)
      (by unfold INT_MAX; omega)
    refine ⟨("/* Line " ++ mid ++ "| */ " ++ line) :: out, ?_, by simp [hlen], ?_⟩
    · unfold annotateLoop
      simp only [hw, hmid, hrun, Outcome.bind]
    · intro j hj
      cases j with
      | zero =>
        refine ⟨mid, ?_, by simp⟩
        simpa using hmid
      | succ j =>
        obtain ⟨mid', hpre, hget⟩ := hout j (by simpa using hj)
        refine ⟨mid', ?_, ?_⟩
        · have e : i + ((j + 1 : Nat) : Int) + 1 = i + 1 + (j : Int) + 1 := by push_cast; ring
          rw [e]; exact hpre
        · simpa using hget

theorem findNewline_date (date : List Char) (h : '\n' ∉ date) :
    findNewline (date ++ ['\n']) = some date.length ∧
      (date ++ ['\n']).eraseIdx date.length = date := by
  have hidx : (date ++ ['\n']).indexOf '\n' = date.length := by
    induction date with
    | nil => rfl
    | cons c cs ih =>
      have hc : c ≠ '\n' := fun hc => h (by simp [hc])
      have hcs : '\n' ∉ cs := fun hcs => h (by simp [hcs])
      simp only [List.cons_append, List.length_cons]
      rw [List.indexOf_cons_ne _ hc, ih hcs]
  constructor
  · unfold findNewline
    rw [hidx]
    simp
  · induction date with
    | nil => rfl
    | cons c cs ih =>
      have hcs : '\n' ∉ cs := fun hcs => h (by simp [hcs])
      have hidx' : (cs ++ ['\n']).indexOf '\n' = cs.length := by
        have hc : c ≠ '\n' := fun hc => h (by simp [hc])
        simp only [List.cons_append, List.length_cons] at hidx
        rw [List.indexOf_cons_ne _ hc] at hidx
        omega
      simp only [List.cons_append, List.length_cons, List.eraseIdx_cons_succ]
      rw [ih hcs hidx']

/-- C7: when the file of the profiler can be read and holds the lines `l1..lm` with
`m ≤ numlines` (both vectors having `numlines ≤ INT_MAX` cells), `output(true, false, type)`
writes a copy whose body has exactly `m` lines, the `j`-th being the comment of line `j`, which
opens with `/* Line ` and closes with `| */ `, followed by `lj` as read; the footer comes after
the body. Every line is copied once, in order, whatever its call count. -/
theorem annotated_copy_keeps_every_line (s : Profiler) (fs : Files) (type : Int)
    (date text : String) (hs : Sized s) (hL : s.numlines ≤ INT_MAX)
    (hopen : fs s.filename = some text)
    (hm : ((getlines text).length : Int) ≤ s.numlines) (hdate : '\n' ∉ date.data) :
    ∃ out : List String,
      output s fs true false type (date ++ "\n") = .returned
        { cout := "\nTIC annotate: " ++ s.filename ++ " --> " ++ outfileName s ++ "\n"
          outfile := some (outfileName s,
            String.join (out.map fun l => l ++ "\n") ++ footer (timeUnit type) date) } ∧
      out.length = (getlines text).length ∧
      ∀ j (hj : j < (getlines text).length), ∃ mid,
        commentPrefix s (timeUnit type) (j + 1) = .returned ("/* Line " ++ mid ++ "| */ ") ∧
        out[j]? = some ("/* Line " ++ mid ++ "| */ " ++ (getlines text)[j]) := by
  obtain ⟨h0, hlc, hla⟩ := hs
  obtain ⟨out, hrun, hlen, hout⟩ := annotateLoop_lines s (timeUnit type) (getlines text) 0
    (le_refl _) (by omega) (by omega) (by omega)
  obtain ⟨hfind, herase⟩ := findNewline_date date.data hdate
  refine ⟨out, ?_, hlen, ?_⟩
  · have hdata : (date ++ "\n").data = date.data ++ ['\n'] := by
      rw [String.data_append]
    unfold output
    simp only [if_true, Bool.false_eq_true, if_false, Outcome.bind, hopen, hrun, hdata, hfind,
      herase]
    congr 2
  · intro j hj
    obtain ⟨mid, hpre, hget⟩ := hout j hj
    refine ⟨mid, ?_, hget⟩
    simpa using hpre


/-- C7 (witness): a three-line file annotated from `busy3`; lines 1 and 2 were called, line 3 was
not, and the three lines come out in order behind their comments. -/
theorem annotated_copy_keeps_every_line_witness :
    (∃ out : List String,
      output busy3 (fun _ => some "int main() \x7b\n  return 0;\n\x7d") true false 2
          ("Sun Nov  1 01:48:00 2026" ++ "\n") = .returned
        { cout := "\nTIC annotate: " ++ busy3.filename ++ " --> " ++ outfileName busy3 ++ "\n"
          outfile := some (outfileName busy3,
            String.join (out.map fun l => l ++ "\n") ++
              footer (timeUnit 2) "Sun Nov  1 01:48:00 2026") } ∧
      out.length = (getlines "int main() \x7b\n  return 0;\n\x7d").length ∧
      ∀ j (hj : j < (getlines "int main() \x7b\n  return 0;\n\x7d").length), ∃ mid,
        commentPrefix busy3 (timeUnit 2) (j + 1) = .returned ("/* Line " ++ mid ++ "| */ ") ∧
        out[j]? = some ("/* Line " ++ mid ++ "| */ " ++
          (getlines "int main() \x7b\n  return 0;\n\x7d")[j])) ∧
      (output busy3 (fun _ => some "int main() \x7b\n  return 0;\n\x7d") true false 2
          ("Sun Nov  1 01:48:00 2026" ++ "\n")).observe (fun e => e.outfile) = some ("f.cpp_prf1.h",
        "/* Line    1 | Calls          1 | Millisecs      0.000005 | */ int main() \x7b\n" ++
        "/* Line    2 | Calls          2 | Millisecs      0.000010 | */   return 0;\n" ++
        "/* Line    3 |                  |                         | */ \x7d\n" ++
        footer (timeUnit 2) "Sun Nov  1 01:48:00 2026") :=
  ⟨annotated_copy_keeps_every_line busy3 (fun _ => some "int main() \x7b\n  return 0;\n\x7d") 2
      "Sun Nov  1 01:48:00 2026" "int main() \x7b\n  return 0;\n\x7d"
      (by decide) (by decide) rfl (by decide) (by decide),
    by decide⟩

/-! ## Profiler ids and file names -/

theorem digitChar_value (r : Nat) (hr : r < 10) : (Nat.digitChar r).toNat - 48 = r := by
  interval_cases r <;> rfl

theorem digitsValue_toDigitsCore (fuel : Nat) : ∀ (n : Nat) (ds : List Char), n < fuel →
    digitsValue 0 (Nat.toDigitsCore 10 fuel n ds) = digitsValue n ds := by
  induction fuel with
  | zero => intro n ds h; omega
  | succ fuel ih =>
    intro n ds h
    unfold Nat.toDigitsCore
    have hval : digitsValue (n / 10) (Nat.digitChar (n % 10) :: ds) = digitsValue n ds := by
      unfold digitsValue
      simp only [List.foldl_cons]
      rw [digitChar_value _ (Nat.mod_lt _ (by decide))]
      congr 1
      omega
    by_cases h0 : n / 10 = 0
    · simp only [h0, if_true]
      rw [← hval, h0]
    · simp only [h0, if_false]
      rw [ih (n / 10) _ (by omega), hval]

theorem decimal_injective (m n : Nat) (h : decimal m = decimal n) : m = n := by
  unfold decimal Nat.toDigits at h
  have h' : Nat.toDigitsCore 10 (m + 1) m [] = Nat.toDigitsCore 10 (n + 1) n [] := by
    injection h
  have hm := digitsValue_toDigitsCore (m + 1) m [] (by omega)
  have hn := digitsValue_toDigitsCore (n + 1) n [] (by omega)
  rw [h'] at hm
  rw [hm] at hn
  simpa [digitsValue] using hn

/-- Counter and ids along the constructor calls of a process: the call at position `j`, when it
returns, gives the profiler the id `ObjCounter + j + 1`. -/
theorem constructAll_id (fs : Files) (cs : List Construction) :
    ∀ (ObjCounter : Int) (j : Nat) (p : Profiler), 0 ≤ ObjCounter →
      ObjCounter + cs.length ≤ INT_MAX →
      (constructAll fs ObjCounter cs)[j]? = some (.returned p) →
      p.profilerid = ObjCounter + j + 1 ∧ ∃ c, cs[j]? = some c ∧ p.filename = c.in_filename := by
  induction cs with
  | nil => intro c j p _ _ h; simp [constructAll] at h
  | cons c cs ih =>
    intro ctr j p h0 hM h
    simp only [List.length_cons] at hM
    push_cast at hM
    unfold INT_MAX at hM
    have hw : wrapInt (ctr + 1) = ctr + 1 := wrapInt_eq _ (by omega) (by omega)
    have hctr : (construct fs ctr c).2 = ctr + 1 := by
      unfold construct
      cases c.in_numlines <;> simp [construct1, construct2, hw]
    unfold constructAll at h
    cases j with
    | zero =>
      simp only [List.getElem?_cons_zero, Option.some.injEq] at h
      have hp : p.profilerid = ctr + 1 ∧ p.filename = c.in_filename := by
        unfold construct at h
        cases hn : c.in_numlines with
        | none =>
          simp only [hn, construct1, constructWith, resize] at h
          split at h
          · simp [Outcome.bind] at h
          · simp only [Outcome.bind, Outcome.returned.injEq] at h
            rw [← h, hw]
            exact ⟨rfl, rfl⟩
        | some n =>
          simp only [hn, construct2, constructWith, resize] at h
          split at h
          · simp [Outcome.bind] at h
          · simp only [Outcome.bind, Outcome.returned.injEq] at h
            rw [← h, hw]
            exact ⟨rfl, rfl⟩
      exact ⟨by simpa using hp.1, c, by simp, hp.2⟩
    | succ j =>
      simp only [List.getElem?_cons_succ] at h
      rw [hctr] at h
      obtain ⟨hid, hc⟩ := ih (ctr + 1) j p (by omega) (by unfold INT_MAX; omega) h
      refine ⟨?_, by simpa using hc⟩
      rw [hid]; push_cast; ring

/-- C8: among the constructor calls of one process (at most `INT_MAX` of them, the counter
starting at 0), the `k`-th profiler constructed has id `k`; so two profilers constructed at
different positions for the same file name have different ids and different names
`<filename>_prf<id>.h` for their annotated copies. -/
theorem ids_and_copy_names_differ (fs : Files) (cs : List Construction) (j k : Nat)
    (pj pk : Profiler) (hlen : (cs.length : Int) ≤ INT_MAX) (hjk : j ≠ k)
    (hj : (constructAll fs ObjCounter0 cs)[j]? = some (.returned pj))
    (hk : (constructAll fs ObjCounter0 cs)[k]? = some (.returned pk))
    (hsame : pj.filename = pk.filename) :
    pj.profilerid = j + 1 ∧ pk.profilerid = k + 1 ∧ pj.profilerid ≠ pk.profilerid ∧
      outfileName pj = pj.filename ++ "_prf" ++ decimal (j + 1) ++ ".h" ∧
      outfileName pk = pk.filename ++ "_prf" ++ decimal (k + 1) ++ ".h" ∧
      outfileName pj ≠ outfileName pk := by
  obtain ⟨hidj, -⟩ := constructAll_id fs cs ObjCounter0 j pj (le_refl _)
    (by unfold ObjCounter0; omega) hj
  obtain ⟨hidk, -⟩ := constructAll_id fs cs ObjCounter0 k pk (le_refl _)
    (by unfold ObjCounter0; omega) hk
  simp only [ObjCounter0, zero_add] at hidj hidk
  have hnj : outfileName pj = pj.filename ++ "_prf" ++ decimal (j + 1) ++ ".h" := by
    unfold outfileName to_string
    rw [hidj, if_neg (by omega)]
    congr 3
  have hnk : outfileName pk = pk.filename ++ "_prf" ++ decimal (k + 1) ++ ".h" := by
    unfold outfileName to_string
    rw [hidk, if_neg (by omega)]
    congr 3
  refine ⟨hidj, hidk, by rw [hidj, hidk]; omega, hnj, hnk, ?_⟩
  rw [hnj, hnk, hsame]
  intro heq
  have hdata := congrArg String.data heq
  simp only [String.data_append] at hdata
  have h1 := List.append_cancel_right hdata
  have h2 := List.append_cancel_left h1
  have h3 : decimal (j + 1) = decimal (k + 1) := String.ext h2
  have := decimal_injective _ _ h3
  omega

/-- C8 (witness): the two profilers of `test_profiler.cpp`, both made for the same file, get the
ids 1 and 2 and the copy names `test_profiler.cpp_prf1.h` and `test_profiler.cpp_prf2.h`. -/
theorem ids_and_copy_names_differ_witness :
    (myprofiler1.profilerid
        = (0 : Nat) + 1 ∧
      myprofiler2.profilerid
        = (1 : Nat) + 1 ∧
      myprofiler1.profilerid
        ≠ myprofiler2.profilerid ∧
      outfileName myprofiler1
        = "test_profiler.cpp" ++ "_prf" ++ decimal (0 + 1) ++ ".h" ∧
      outfileName myprofiler2
        = "test_profiler.cpp" ++ "_prf" ++ decimal (1 + 1) ++ ".h" ∧
      outfileName myprofiler1
        ≠ outfileName myprofiler2) ∧
      outfileName myprofiler1
        = "test_profiler.cpp_prf1.h" ∧
      outfileName myprofiler2
        = "test_profiler.cpp_prf2.h" :=
  ⟨ids_and_copy_names_differ (fun _ => some "int main() \x7b\n\x7d\n")
      [⟨"test_profiler.cpp", none, 7⟩, ⟨"test_profiler.cpp", none, 9⟩] 0 1 _ _
      (by decide) (by decide) (by decide) (by decide) (by decide),
    by decide, by decide⟩


/-! ## Binary64 rounding and the digits written -/

theorem bitLengthAux_spec (fuel : Nat) : ∀ n : Nat, n ≤ fuel → 0 < n →
    2 ^ (bitLengthAux fuel n - 1) ≤ n ∧ n < 2 ^ bitLengthAux fuel n ∧
      0 < bitLengthAux fuel n := by
  induction fuel with
  | zero => intro n h1 h2; omega
  | succ fuel ih =>
    intro n hn hpos
    unfold bitLengthAux
    rw [if_neg (by omega)]
    by_cases h1 : n / 2 = 0
    · have hn1 : n = 1 := by omega
      subst hn1
      have : bitLengthAux fuel (1 / 2) = 0 := by
        cases fuel with
        | zero => rfl
        | succ f => rfl
      rw [this]
      simp
    · obtain ⟨hlo, hhi, hb⟩ := ih (n / 2) (by omega) (by omega)
      refine ⟨?_, ?_, by omega⟩
      · have e : bitLengthAux fuel (n / 2) + 1 - 1 = (bitLengthAux fuel (n / 2) - 1) + 1 := by
          omega
        rw [e, pow_succ]
        omega
      · rw [pow_succ]
        omega

theorem bitLength_spec (n : Nat) (h : 0 < n) :
    2 ^ (bitLength n - 1) ≤ n ∧ n < 2 ^ bitLength n ∧ 0 < bitLength n :=
  bitLengthAux_spec n n (le_refl _) h

theorem roundHalfEven_bounds (num den : Nat) (hden : 0 < den) :
    2 * (roundHalfEven num den * den) ≤ 2 * num + den ∧
      2 * num ≤ 2 * (roundHalfEven num den * den) + den := by
  have hdm := Nat.div_add_mod num den
  have hr := Nat.mod_lt num hden
  have hmul : den * (num / den) = num / den * den := Nat.mul_comm _ _
  unfold roundHalfEven
  simp only
  split_ifs with h1 h2 h3
  · omega
  · rw [Nat.add_mul]; omega
  · omega
  · rw [Nat.add_mul]; omega

theorem roundHalfEven_one (n : Nat) : roundHalfEven n 1 = n := by
  unfold roundHalfEven
  simp only [Nat.div_one, Nat.mod_one]
  rw [if_pos (by decide)]

theorem roundHalfEven_near (num den : Nat) (hden : 0 < den) :
    |(roundHalfEven num den : ℚ) - (num : ℚ) / den| ≤ 1 / 2 := by
  obtain ⟨h1, h2⟩ := roundHalfEven_bounds num den hden
  have hd : (0 : ℚ) < den := by exact_mod_cast hden
  have h1' : (2 : ℚ) * (roundHalfEven num den * den) ≤ 2 * num + den := by exact_mod_cast h1
  have h2' : (2 : ℚ) * num ≤ 2 * (roundHalfEven num den * den) + den := by exact_mod_cast h2
  rw [abs_le]
  constructor
  · have : (num : ℚ) / den ≤ roundHalfEven num den + 1 / 2 := by
      rw [div_le_iff₀ hd]
      linarith
    linarith
  · have : (roundHalfEven num den : ℚ) - 1 / 2 ≤ (num : ℚ) / den := by
      rw [le_div_iff₀ hd]
      linarith
    linarith


theorem scaled_ratio (num den : Nat) (e : Int) (hden : 0 < den) :
    ((num * 2 ^ (-e).toNat : Nat) : ℚ) / ((den * 2 ^ e.toNat : Nat) : ℚ)
      = (num : ℚ) / den / (2 : ℚ) ^ e := by
  have hd : (den : ℚ) ≠ 0 := by exact_mod_cast hden.ne'
  rcases le_or_lt 0 e with h | h
  · obtain ⟨k, rfl⟩ := Int.eq_ofNat_of_zero_le h
    have e1 : (-(k : Int)).toNat = 0 := by omega
    have e2 : ((k : Int)).toNat = k := by omega
    rw [e1, e2, zpow_natCast]
    push_cast
    field_simp
  · obtain ⟨k, rfl⟩ := Int.exists_eq_neg_ofNat (le_of_lt h)
    have e1 : (-(-(k : Int))).toNat = k := by omega
    have e2 : (-(k : Int)).toNat = 0 := by omega
    rw [e1, e2, zpow_neg, zpow_natCast]
    push_cast
    field_simp

/-- The exponent `Double.nearest` picks leaves a significand of at least `2^52`, and the
significand is the scaled quotient rounded to the nearest integer. -/
theorem nearest_spec (neg : Bool) (num den : Nat) (hnum : 0 < num) (hden : 0 < den) :
    (Double.nearest neg num den).neg = neg ∧
    (Double.nearest neg num den).mant =
      roundHalfEven (num * 2 ^ (-(Double.nearest neg num den).expo).toNat)
        (den * 2 ^ (Double.nearest neg num den).expo.toNat) ∧
    (2 : ℚ) ^ 52 ≤ (num : ℚ) / den / (2 : ℚ) ^ (Double.nearest neg num den).expo := by
  obtain ⟨hnlo, -, hnb⟩ := bitLength_spec num hnum
  obtain ⟨-, hdhi, hdb⟩ := bitLength_spec den hden
  have hd : (0 : ℚ) < den := by exact_mod_cast hden
  unfold Double.nearest
  rw [if_neg (by omega)]
  simp only
  split_ifs with htest
  · refine ⟨trivial, trivial, ?_⟩
    rw [← scaled_ratio num den _ hden]
    have hpos : (0 : ℚ) < ((den * 2 ^ ((bitLength num : Int) - bitLength den - 52).toNat : Nat) : ℚ) := by
      exact_mod_cast Nat.mul_pos hden (Nat.pos_pow_of_pos _ (by decide))
    rw [le_div_iff₀ hpos]
    exact_mod_cast htest
  · refine ⟨trivial, trivial, ?_⟩
    have hq1 : (2 : ℚ) ^ (bitLength num - 1) ≤ num := by exact_mod_cast hnlo
    have hq2 : (den : ℚ) < (2 : ℚ) ^ bitLength den := by exact_mod_cast hdhi
    have he : ((bitLength num : Int) - bitLength den - 52 - 1)
        = ((bitLength num - 1 : Nat) : Int) - (bitLength den : Nat) - 52 := by omega
    rw [he, zpow_sub₀ (by norm_num), zpow_sub₀ (by norm_num), zpow_natCast, zpow_natCast]
    have h52 : ((2 : ℚ) ^ (52 : Int)) = 2 ^ 52 := by norm_num
    rw [h52]
    have hp1 : (0 : ℚ) < 2 ^ (bitLength num - 1) := by positivity
    have hp2 : (0 : ℚ) < 2 ^ bitLength den := by positivity
    rw [le_div_iff₀ (by positivity), le_div_iff₀ hd]
    have : (2 : ℚ) ^ 52 * (2 ^ (bitLength num - 1) / 2 ^ bitLength den / 2 ^ 52) * den
        = 2 ^ (bitLength num - 1) * (den / 2 ^ bitLength den) := by
      field_simp
      ring
    rw [this]
    have hfrac : (den : ℚ) / 2 ^ bitLength den ≤ 1 := by
      rw [div_le_one hp2]; exact le_of_lt hq2
    calc (2 : ℚ) ^ (bitLength num - 1) * (den / 2 ^ bitLength den)
        ≤ 2 ^ (bitLength num - 1) * 1 := by
          apply mul_le_mul_of_nonneg_left hfrac (le_of_lt hp1)
      _ ≤ num := by simpa using hq1


/-- A positive integer below `2^53` converts to binary64 without rounding. -/
theorem ofInt_exact (a : Int) (h0 : 0 < a) (h : a < 2 ^ 53) :
    ∃ k : Nat, Double.ofInt a = ⟨false, a.natAbs * 2 ^ k, -(k : Int)⟩ := by
  have hn : 0 < a.natAbs := by omega
  obtain ⟨hneg, hmant, hbound⟩ := nearest_spec (decide (a < 0)) a.natAbs 1 hn (by decide)
  have hnq : (a.natAbs : ℚ) < 2 ^ 53 := by
    have : a.natAbs < 2 ^ 53 := by omega
    exact_mod_cast this
  have he : (Double.nearest (decide (a < 0)) a.natAbs 1).expo ≤ 0 := by
    by_contra hcon
    have h1 : (1 : Int) ≤ (Double.nearest (decide (a < 0)) a.natAbs 1).expo := by omega
    have h2 : (2 : ℚ) ^ (1 : Int) ≤ (2 : ℚ) ^ (Double.nearest (decide (a < 0)) a.natAbs 1).expo :=
      zpow_le_zpow_right₀ (by norm_num) h1
    have hpos : (0 : ℚ) < (2 : ℚ) ^ (Double.nearest (decide (a < 0)) a.natAbs 1).expo := by
      positivity
    rw [le_div_iff₀ hpos] at hbound
    simp only [Nat.cast_one, div_one, zpow_one] at hbound h2
    nlinarith
  refine ⟨(-(Double.nearest (decide (a < 0)) a.natAbs 1).expo).toNat, ?_⟩
  have hz : (Double.nearest (decide (a < 0)) a.natAbs 1).expo.toNat = 0 := by omega
  rw [hz, pow_zero, Nat.mul_one, roundHalfEven_one] at hmant
  unfold Double.ofInt
  have hdec : decide (a < 0) = false := by simp; omega
  rw [hdec] at hneg hmant ⊢
  have hexp : (Double.nearest false a.natAbs 1).expo
      = -(((-(Double.nearest false a.natAbs 1).expo).toNat : Nat) : Int) := by
    rw [hdec] at he
    omega
  cases hx : Double.nearest false a.natAbs 1 with
  | mk n m e =>
    rw [hx] at hneg hmant hexp
    simp only at hneg hmant hexp
    simp only [Double.mk.injEq]
    exact ⟨hneg, hmant, hexp⟩


theorem scaled_value (m p : Nat) (e : Int) :
    ((m * 2 ^ e.toNat * 10 ^ p : Nat) : ℚ) / ((2 ^ (-e).toNat : Nat) : ℚ)
      = (m : ℚ) * 10 ^ p * (2 : ℚ) ^ e := by
  rcases le_or_lt 0 e with h | h
  · obtain ⟨k, rfl⟩ := Int.eq_ofNat_of_zero_le h
    have e1 : (-(k : Int)).toNat = 0 := by omega
    have e2 : ((k : Int)).toNat = k := by omega
    rw [e1, e2, zpow_natCast]
    push_cast
    ring
  · obtain ⟨k, rfl⟩ := Int.exists_eq_neg_ofNat (le_of_lt h)
    have e1 : (-(-(k : Int))).toNat = k := by omega
    have e2 : (-(k : Int)).toNat = 0 := by omega
    rw [e1, e2, zpow_neg, zpow_natCast]
    push_cast
    field_simp

/-- The quotient of two integers that convert exactly is the nearest binary64 to their ratio. -/
theorem div_of_exact (a D k j : Nat) (ha : 0 < a) (hD : 0 < D) :
    ∃ num den : Nat, 0 < num ∧ 0 < den ∧ (num : ℚ) / den = (a : ℚ) / D ∧
      Double.div ⟨false, a * 2 ^ k, -(k : Int)⟩ ⟨false, D * 2 ^ j, -(j : Int)⟩
        = Double.nearest false num den := by
  refine ⟨a * 2 ^ k * 2 ^ (-(k : Int) - -(j : Int)).toNat,
    D * 2 ^ j * 2 ^ (-(j : Int) - -(k : Int)).toNat, by positivity, by positivity, ?_, rfl⟩
  have hDq : (D : ℚ) ≠ 0 := by exact_mod_cast hD.ne'
  rcases le_total k j with h | h
  · obtain ⟨d, rfl⟩ := Nat.exists_eq_add_of_le h
    have e1 : (-(k : Int) - -((k + d : Nat) : Int)).toNat = d := by omega
    have e2 : (-((k + d : Nat) : Int) - -(k : Int)).toNat = 0 := by omega
    rw [e1, e2]
    push_cast
    rw [pow_add]
    field_simp
    ring
  · obtain ⟨d, rfl⟩ := Nat.exists_eq_add_of_le h
    have e1 : (-((j + d : Nat) : Int) - -(j : Int)).toNat = 0 := by omega
    have e2 : (-(j : Int) - -((j + d : Nat) : Int)).toNat = d := by omega
    rw [e1, e2]
    push_cast
    rw [pow_add]
    field_simp
    ring

/-- The number printed for `(double)a / D` with `p` decimals, `D = g * 10^p`: once scaled by
`10^p` it is within half of `g` of `a`, for `0 < a < 2^52`. -/
theorem shown_value_near (a D p g : Nat) (ha0 : 0 < a) (ha : a < 2 ^ 52) (hg : 0 < g)
    (hD : D = g * 10 ^ p) (hD53 : D < 2 ^ 53) :
    (Double.div (Double.ofInt a) (Double.ofInt D)).neg = false ∧
      2 * |(g : Int) * (roundHalfEven
          ((Double.div (Double.ofInt a) (Double.ofInt D)).mant *
            2 ^ (Double.div (Double.ofInt a) (Double.ofInt D)).expo.toNat * 10 ^ p)
          (2 ^ (-(Double.div (Double.ofInt a) (Double.ofInt D)).expo).toNat) : Nat) - a| ≤ g := by
  have hDpos : 0 < D := by rw [hD]; positivity
  obtain ⟨k, hx⟩ := ofInt_exact (a : Int) (by exact_mod_cast ha0)
    (by have : a < 2 ^ 53 := by omega
        exact_mod_cast this)
  obtain ⟨j, hy⟩ := ofInt_exact (D : Int) (by exact_mod_cast hDpos) (by exact_mod_cast hD53)
  simp only [Int.natAbs_ofNat] at hx hy
  obtain ⟨num, den, hnum, hden, hratio, hdiv⟩ := div_of_exact a D k j ha0 hDpos
  rw [hx, hy, hdiv]
  obtain ⟨hneg, hmant, hbound⟩ := nearest_spec false num den hnum hden
  refine ⟨hneg, ?_⟩
  generalize Double.nearest false num den = z at hneg hmant hbound ⊢
  obtain ⟨zn, m, e⟩ := z
  simp only at hneg hmant hbound ⊢
  have hnear := roundHalfEven_near (num * 2 ^ (-e).toNat) (den * 2 ^ e.toNat) (by positivity)
  rw [← hmant, scaled_ratio num den e hden, hratio] at hnear
  rw [hratio] at hbound
  have hs := roundHalfEven_near (m * 2 ^ e.toNat * 10 ^ p) (2 ^ (-e).toNat) (by positivity)
  rw [scaled_value] at hs
  generalize roundHalfEven (m * 2 ^ e.toNat * 10 ^ p) (2 ^ (-e).toNat) = s at hs ⊢
  have ht : (0 : ℚ) < (2 : ℚ) ^ e := by positivity
  have hDq : (0 : ℚ) < (D : ℚ) := by exact_mod_cast hDpos
  have hDg : (D : ℚ) = g * 10 ^ p := by rw [hD]; push_cast; ring
  have hgq : (0 : ℚ) < (g : ℚ) := by exact_mod_cast hg
  have haq : (a : ℚ) < 2 ^ 52 := by exact_mod_cast ha
  have hW : (0 : ℚ) < (2 : ℚ) ^ e * D := mul_pos ht hDq
  have hrW : (a : ℚ) / D / (2 : ℚ) ^ e * ((2 : ℚ) ^ e * D) = a := by
    field_simp
    left
    ring
  generalize (a : ℚ) / D / (2 : ℚ) ^ e = r at hnear hbound hrW
  generalize hWdef : (2 : ℚ) ^ e * D = W at hW hrW
  have hW1 : W < 1 := by
    have := mul_le_mul_of_nonneg_right hbound (le_of_lt hW)
    nlinarith
  rw [abs_le] at hnear hs
  have h1 : (m - r) * W ≤ 1 / 2 * W := mul_le_mul_of_nonneg_right hnear.2 (le_of_lt hW)
  have h2 : -(1 / 2) * W ≤ (m - r) * W := mul_le_mul_of_nonneg_right hnear.1 (le_of_lt hW)
  have h3 : ((s : ℚ) - m * 10 ^ p * 2 ^ e) * g ≤ 1 / 2 * g :=
    mul_le_mul_of_nonneg_right hs.2 (le_of_lt hgq)
  have h4 : -(1 / 2) * g ≤ ((s : ℚ) - m * 10 ^ p * 2 ^ e) * g :=
    mul_le_mul_of_nonneg_right hs.1 (le_of_lt hgq)
  have hmW : (m : ℚ) * 10 ^ p * 2 ^ e * g = m * W := by
    rw [← hWdef, hDg]; ring
  have hup : 2 * ((g : ℚ) * s - a) < g + 1 := by nlinarith
  have hlo : -((g : ℚ) + 1) < 2 * ((g : ℚ) * s - a) := by nlinarith
  have hup' : 2 * ((g : Int) * s - a) < g + 1 := by exact_mod_cast hup
  have hlo' : -((g : Int) + 1) < 2 * ((g : Int) * s - a) := by exact_mod_cast hlo
  rw [← abs_two, ← abs_mul, abs_le]
  constructor <;> omega


theorem string_empty_append (t : String) : "" ++ t = t := by
  apply String.ext
  rw [String.data_append]
  rfl

theorem timeUnit_cases (type : Int) :
    timeUnit type = ⟨"Nanosecs ", 1, 0⟩ ∨ timeUnit type = ⟨"Microsecs ", 1000, 3⟩ ∨
      timeUnit type = ⟨"Millisecs ", 1000000, 6⟩ ∨ timeUnit type = ⟨"Secs ", 1000000000, 6⟩ := by
  unfold timeUnit
  by_cases h3 : type = 3
  · simp [h3]
  · by_cases h1 : type = 1
    · simp [h1]
    · by_cases h0 : type = 0
      · simp [h0]
      · simp [h0, h1, h3]

/-- The text written for `(double)average / D` with `p` decimals, `D = g * 10^p`, shows a number
`s / 10^p` with `g * s` within half of `g` of `average`, for `0 ≤ average < 2^52`. -/
theorem valueText_near (name : String) (a : Int) (D p g : Nat) (h0 : 0 ≤ a) (h : a < 2 ^ 52)
    (hg : 0 < g) (hD : D = g * 10 ^ p) (hD53 : D < 2 ^ 53) :
    ∃ s : Nat, valueText ⟨name, (D : Int), p⟩ a = fixedText s p ∧
      2 * |(g : Int) * s - a| ≤ g := by
  have hDpos : 0 < D := by rw [hD]; positivity
  rcases eq_or_lt_of_le h0 with ha | ha
  · subst ha
    refine ⟨0, ?_, by simp⟩
    obtain ⟨j, hy⟩ := ofInt_exact (D : Int) (by exact_mod_cast hDpos) (by exact_mod_cast hD53)
    have hx : Double.ofInt 0 = ⟨false, 0, 0⟩ := by decide
    have hz : Double.div ⟨false, 0, 0⟩ ⟨false, (D : Int).natAbs * 2 ^ j, -(j : Int)⟩
        = ⟨false, 0, 0⟩ := by
      unfold Double.div Double.nearest
      simp
    unfold valueText Double.fixed
    simp only [hx, hy, hz]
    simp only [Bool.false_eq_true, if_false, zero_mul, Int.toNat_zero, neg_zero, pow_zero,
      roundHalfEven_one]
    exact string_empty_append _
  · obtain ⟨n, rfl⟩ := Int.eq_ofNat_of_zero_le h0
    have hn0 : 0 < n := by exact_mod_cast ha
    have hn : n < 2 ^ 52 := by exact_mod_cast h
    obtain ⟨hneg, hnear⟩ := shown_value_near n D p g hn0 hn hg hD hD53
    refine ⟨_, ?_, hnear⟩
    unfold valueText Double.fixed
    simp only [hneg, Bool.false_eq_true, if_false]
    exact string_empty_append _


/-! ## Units -/

/-- C9: the selector of `output` gives for 0 the name `Nanosecs `, divisor 1 and 0 decimals,
for 1 `Microsecs `, 1000 and 3, for 2 `Millisecs `, 1000000 and 6, for 3 `Secs `, 1000000000 and
6; the value written in a row is the text, under `std::fixed` with that many decimals in a field
of 13, of `(double)average / divideby`; and for `0 ≤ average < 2^52` that text shows a number
`s / 10^outdigits` which is `average / divideby` rounded to `outdigits` decimals, with no
rounding at all for nanoseconds, microseconds and milliseconds, where `s = average`. -/
theorem unit_selector_table :
    timeUnit 0 = ⟨"Nanosecs ", 1, 0⟩ ∧ timeUnit 1 = ⟨"Microsecs ", 1000, 3⟩ ∧
      timeUnit 2 = ⟨"Millisecs ", 1000000, 6⟩ ∧ timeUnit 3 = ⟨"Secs ", 1000000000, 6⟩ ∧
      (∀ (type i calls average : Int),
        reportRow (timeUnit type) i calls average =
          "Line " ++ setw 4 (to_string i) ++ " | " ++ "Calls " ++ setw 10 (to_string calls) ++
            " | " ++ (timeUnit type).s_name ++
            setw 13 (Double.fixed (timeUnit type).outdigits
              (Double.div (Double.ofInt average) (Double.ofInt (timeUnit type).divideby))) ++
            " |" ++ "\n") ∧
      ∀ (type average : Int), 0 ≤ average → average < 2 ^ 52 →
        ∃ s : Nat, valueText (timeUnit type) average = fixedText s (timeUnit type).outdigits ∧
          2 * |(timeUnit type).divideby / 10 ^ (timeUnit type).outdigits * s - average|
            ≤ (timeUnit type).divideby / 10 ^ (timeUnit type).outdigits ∧
          ((timeUnit type).divideby = 10 ^ (timeUnit type).outdigits → (s : Int) = average) := by
  refine ⟨by decide, by decide, by decide, by decide, fun _ _ _ _ => rfl, ?_⟩
  intro type average h0 h
  rcases timeUnit_cases type with hu | hu | hu | hu
  · obtain ⟨s, hs1, hs2⟩ := valueText_near "Nanosecs " average 1 0 1 h0 h (by decide)
      (by norm_num) (by norm_num)
    rw [hu]
    refine ⟨s, hs1, ?_, ?_⟩
    · norm_num at hs2 ⊢
      exact hs2
    · intro _
      norm_num at hs2
      have hz : |(s : Int) - average| = 0 := by
        have := abs_nonneg ((s : Int) - average)
        omega
      exact sub_eq_zero.mp (abs_eq_zero.mp hz)
  · obtain ⟨s, hs1, hs2⟩ := valueText_near "Microsecs " average 1000 3 1 h0 h (by decide)
      (by norm_num) (by norm_num)
    rw [hu]
    refine ⟨s, hs1, ?_, ?_⟩
    · norm_num at hs2 ⊢
      exact hs2
    · intro _
      norm_num at hs2
      have hz : |(s : Int) - average| = 0 := by
        have := abs_nonneg ((s : Int) - average)
        omega
      exact sub_eq_zero.mp (abs_eq_zero.mp hz)
  · obtain ⟨s, hs1, hs2⟩ := valueText_near "Millisecs " average 1000000 6 1 h0 h (by decide)
      (by norm_num) (by norm_num)
    rw [hu]
    refine ⟨s, hs1, ?_, ?_⟩
    · norm_num at hs2 ⊢
      exact hs2
    · intro _
      norm_num at hs2
      have hz : |(s : Int) - average| = 0 := by
        have := abs_nonneg ((s : Int) - average)
        omega
      exact sub_eq_zero.mp (abs_eq_zero.mp hz)
  · obtain ⟨s, hs1, hs2⟩ := valueText_near "Secs " average 1000000000 6 1000 h0 h (by decide)
      (by norm_num) (by norm_num)
    rw [hu]
    refine ⟨s, hs1, ?_, ?_⟩
    · norm_num at hs2 ⊢
      exact hs2
    · intro hfalse
      norm_num at hfalse

/-- C10 (counterexample): an average of 1,000,000 ns is not written as `1` in milliseconds nor as
`1000` in microseconds: the texts are `1.000000` and `1000.000`. -/
theorem million_ns_not_rendered_bare :
    valueText (timeUnit 2) 1000000 ≠ "1" ∧ valueText (timeUnit 1) 1000000 ≠ "1000" ∧
      valueField (timeUnit 2) 1000000 ≠ setw outints "1" ∧
      valueField (timeUnit 1) 1000000 ≠ setw outints "1000" := by
  decide

/-- C10 (amended): an average of 1,000,000 ns is written as `1.000000` in milliseconds (6
decimals), `1000.000` in microseconds (3 decimals), `1000000` in nanoseconds and `0.001000` in
seconds, each right-aligned in a field of 13 characters. -/
theorem million_ns_rendering :
    valueText (timeUnit 2) 1000000 = "1.000000" ∧ valueText (timeUnit 1) 1000000 = "1000.000" ∧
      valueText (timeUnit 0) 1000000 = "1000000" ∧ valueText (timeUnit 3) 1000000 = "0.001000" ∧
      valueField (timeUnit 2) 1000000 = "     1.000000" ∧
      valueField (timeUnit 1) 1000000 = "     1000.000" ∧
      valueField (timeUnit 0) 1000000 = "      1000000" ∧
      valueField (timeUnit 3) 1000000 = "     0.001000" := by
  decide

/-! ## Counting lines -/

theorem getLast?_not_newline (cur : List Char) (h : '\n' ∉ cur) :
    cur.getLast? ≠ some '\n' := by
  intro hl
  exact h (List.mem_of_getLast?_eq_some hl)

/-- Number of lines `getline` extracts: one for each line break, and one more when text is left
after the last line break. -/
theorem getlinesAux_length (cs : List Char) : ∀ cur : List Char, '\n' ∉ cur →
    (getlinesAux cs cur).length = cs.count '\n' +
      (if (cur ++ cs) ≠ [] ∧ (cur ++ cs).getLast? ≠ some '\n' then 1 else 0) := by
  induction cs with
  | nil =>
    intro cur h
    unfold getlinesAux
    by_cases hc : cur = []
    · simp [hc]
    · have := getLast?_not_newline cur h
      simp [hc, this]
  | cons c cs ih =>
    intro cur h
    unfold getlinesAux
    by_cases hc : c = '\n'
    · subst hc
      rw [if_pos rfl, List.length_cons, ih [] (by simp), List.count_cons_self]
      have hlast : (cur ++ '\n' :: cs).getLast? = if cs = [] then some '\n' else cs.getLast? := by
        by_cases hcs : cs = []
        · simp [hcs]
        · rw [if_neg hcs, List.getLast?_append_of_ne_nil _ (by simp)]
          cases cs with
          | nil => exact absurd rfl hcs
          | cons d ds => exact List.getLast?_cons_cons
      rw [hlast]
      by_cases hcs : cs = []
      · simp [hcs]
      · simp [hcs]
        omega
    · rw [if_neg hc, ih (cur ++ [c]) (by simp [h, Ne.symm hc]), List.count_cons_of_ne (Ne.symm hc)]
      simp

theorem count_lines_fold (l : List String) : ∀ acc : Int, 0 ≤ acc → acc + l.length ≤ INT_MAX →
    l.foldl (fun in_numlines _ => wrapInt (in_numlines + 1)) acc = acc + l.length := by
  induction l with
  | nil => intro acc _ _; simp
  | cons x l ih =>
    intro acc h0 hM
    simp only [List.length_cons] at hM
    push_cast at hM
    unfold INT_MAX at hM
    have hw : wrapInt (acc + 1) = acc + 1 := wrapInt_eq _ (by omega) (by omega)
    rw [List.foldl_cons, hw, ih (acc + 1) (by omega) (by unfold INT_MAX; omega)]
    simp only [List.length_cons]
    push_cast
    ring

/-- C11 (counterexample): the text `a`, line break, `b` holds one line break, and `readNumlines`
returns 2: the last line counts although no line break follows it. -/
theorem readNumlines_counts_open_last_line :
    readNumlines (fun _ => some "a\nb") "f.cpp" = 2 ∧ ("a\nb".data.count '\n' : Int) = 1 ∧
      readNumlines (fun _ => some "a\nb") "f.cpp" ≠ ("a\nb".data.count '\n' : Int) := by
  decide

/-- C11 (amended): for a file that can be opened, with fewer than `INT_MAX` line breaks,
`readNumlines` returns the number of lines `getline` extracts: the number of line breaks of the
text, plus one when the text is not empty and does not end with a line break; for the empty text
that is 0. -/
theorem readNumlines_eq_line_breaks_plus_open_line (fs : Files) (in_filename text : String)
    (hopen : fs in_filename = some text) (hfew : (text.data.count '\n' : Int) < INT_MAX) :
    readNumlines fs in_filename = (getlines text).length ∧
      readNumlines fs in_filename = (text.data.count '\n' : Int) +
        (if text.data ≠ [] ∧ text.data.getLast? ≠ some '\n' then 1 else 0) := by
  have hlen := getlinesAux_length text.data [] (by simp)
  simp only [List.nil_append] at hlen
  have hfold := count_lines_fold (getlines text) 0 (le_refl _) (by
    unfold getlines
    rw [hlen]
    split_ifs <;> push_cast <;> omega)
  have h1 : readNumlines fs in_filename = (getlines text).length := by
    unfold readNumlines
    rw [hopen]
    simpa using hfold
  refine ⟨h1, ?_⟩
  rw [h1]
  unfold getlines
  rw [hlen]
  split_ifs <;> simp

/-- C11 (witness): a text of two closed lines and one open line has 3 lines; the empty text
has none. -/
theorem readNumlines_eq_line_breaks_plus_open_line_witness :
    (readNumlines (fun _ => some "a\nb\nc") "f.cpp" = (getlines "a\nb\nc").length ∧
      readNumlines (fun _ => some "a\nb\nc") "f.cpp" = ("a\nb\nc".data.count '\n' : Int) +
        (if "a\nb\nc".data ≠ [] ∧ "a\nb\nc".data.getLast? ≠ some '\n' then 1 else 0)) ∧
      readNumlines (fun _ => some "a\nb\nc") "f.cpp" = 3 ∧
      readNumlines (fun _ => some "") "f.cpp" = 0 ∧
      readNumlines (fun _ => some "a\nb\n") "f.cpp" = 2 :=
  ⟨readNumlines_eq_line_breaks_plus_open_line (fun _ => some "a\nb\nc") "f.cpp" "a\nb\nc" rfl
      (by decide),
    by decide, by decide, by decide⟩

/-! ## Construction -/

theorem constructWith_returned (id : Int) (f : String) (L now : Int) (s : Profiler)
    (h : constructWith id f L now = .returned s) :
    0 ≤ L ∧ s = { filename := f, profilerid := id, numlines := L,
                  average_time := List.replicate L.toNat 0,
                  call_counter := List.replicate L.toNat 0, previous_time := now } := by
  unfold constructWith resize at h
  by_cases hL : L < 0
  · simp [hL, Outcome.bind] at h
  · simp only [if_neg hL, Outcome.bind, Outcome.returned.injEq] at h
    refine ⟨by omega, ?_⟩
    rw [← h]
    simp

theorem constructWith_negative (id : Int) (f : String) (L now : Int) (hL : L < 0) :
    constructWith id f L now = .thrown .length_error := by
  unfold constructWith resize
  simp [hL, Outcome.bind]

/-- C12 (counterexample): the two-argument constructor with line count 0, and the one-argument
constructor on an empty file that can be read, both return a profiler whose line count is 0. -/
theorem construction_yields_zero_lines :
    (construct2 0 "f.cpp" 0 5).1 = .returned
        { filename := "f.cpp", profilerid := 1, numlines := 0, average_time := [],
          call_counter := [], previous_time := 5 } ∧
      (construct1 (fun _ => some "") 0 "f.cpp" 5).1 = .returned
        { filename := "f.cpp", profilerid := 1, numlines := 0, average_time := [],
          call_counter := [], previous_time := 5 } := by
  decide

/-- C12 (amended): construction never yields a profiler with a negative line count. The
one-argument constructor on a file that cannot be opened (line count `-1`) and the two-argument
constructor with a negative line count return no profiler: `resize` throws `std::length_error`,
after `ObjCounter` was incremented. Whenever a constructor returns, the line count is at least
0; a line count of 0 is accepted. -/
theorem construction_negative_count_throws (fs : Files) (ObjCounter : Int)
    (in_filename : String) (in_numlines now : Int)
    (hclosed : fs in_filename = none) (hneg : in_numlines < 0) :
    readNumlines fs in_filename = -1 ∧
      construct1 fs ObjCounter in_filename now
        = (.thrown .length_error, wrapInt (ObjCounter + 1)) ∧
      construct2 ObjCounter in_filename in_numlines now
        = (.thrown .length_error, wrapInt (ObjCounter + 1)) ∧
      (∀ (fs' : Files) (c : Int) (f : String) (t : Int) (s : Profiler),
        (construct1 fs' c f t).1 = .returned s → 0 ≤ s.numlines) ∧
      (∀ (c : Int) (f : String) (L t : Int) (s : Profiler),
        (construct2 c f L t).1 = .returned s → 0 ≤ s.numlines) := by
  have hr : readNumlines fs in_filename = -1 := by
    unfold readNumlines
    rw [hclosed]
  refine ⟨hr, ?_, ?_, ?_, ?_⟩
  · unfold construct1
    simp only [hr, constructWith_negative _ in_filename (-1) now (by decide)]
  · unfold construct2
    simp only [constructWith_negative _ in_filename in_numlines now hneg]
  · intro fs' c f t s h
    obtain ⟨h0, hs⟩ := constructWith_returned _ _ _ _ _ h
    rw [hs]
    exact h0
  · intro c f L t s h
    obtain ⟨h0, hs⟩ := constructWith_returned _ _ _ _ _ h
    rw [hs]
    exact h0

/-- C12 (witness): no file can be opened and the line count given is `-1`. -/
theorem construction_negative_count_throws_witness :
    readNumlines (fun _ => none) "missing.cpp" = -1 ∧
      construct1 (fun _ => none) 0 "missing.cpp" 5
        = (.thrown .length_error, wrapInt (0 + 1)) ∧
      construct2 0 "missing.cpp" (-1) 5
        = (.thrown .length_error, wrapInt (0 + 1)) ∧
      (∀ (fs' : Files) (c : Int) (f : String) (t : Int) (s : Profiler),
        (construct1 fs' c f t).1 = .returned s → 0 ≤ s.numlines) ∧
      (∀ (c : Int) (f : String) (L t : Int) (s : Profiler),
        (construct2 c f L t).1 = .returned s → 0 ≤ s.numlines) :=
  construction_negative_count_throws (fun _ => none) 0 "missing.cpp" (-1) 5 rfl (by decide)

/-- C16: the two-argument constructor with a line count `L`, `0 ≤ L ≤ INT_MAX`, returns a
profiler whose line count is `L` and whose two vectors have exactly `L` cells
(`getSizeCallCounter` and `getSizeAverageTime` give `L`), every line in `[1, L]` having call
count 0 and average 0. -/
theorem construct2_zeroed_cells (ObjCounter : Int) (in_filename : String) (in_numlines now : Int)
    (h0 : 0 ≤ in_numlines) (hM : in_numlines ≤ INT_MAX) :
    ∃ s, (construct2 ObjCounter in_filename in_numlines now).1 = .returned s ∧
      getNumlines s = in_numlines ∧ (s.call_counter.length : Int) = in_numlines ∧
      (s.average_time.length : Int) = in_numlines ∧
      getSizeCallCounter s = in_numlines ∧ getSizeAverageTime s = in_numlines ∧
      (∀ c ∈ s.call_counter, c = 0) ∧ (∀ a ∈ s.average_time, a = 0) ∧
      ∀ i, 1 ≤ i → i ≤ in_numlines → callsAt s i = some 0 ∧ averageAt s i = some 0 := by
  obtain ⟨s, hs, hfresh, hn, -⟩ := construct2_fresh ObjCounter in_filename in_numlines now h0
  have hsized := fresh_sized s hfresh
  obtain ⟨-, hc, ha⟩ := hfresh
  obtain ⟨-, hlc, hla⟩ := hsized
  unfold INT_MAX at hM
  refine ⟨s, hs, hn, by rw [hlc, hn], by rw [hla, hn], ?_, ?_, ?_, ?_, ?_⟩
  · unfold getSizeCallCounter
    rw [hlc, hn]
    exact wrapInt_eq _ (by omega) (by omega)
  · unfold getSizeAverageTime
    rw [hla, hn]
    exact wrapInt_eq _ (by omega) (by omega)
  · intro c hcm
    rw [hc] at hcm
    exact (List.mem_replicate.mp hcm).2
  · intro a ham
    rw [ha] at ham
    exact (List.mem_replicate.mp ham).2
  · intro i h1 h2
    exact fresh_cells s ⟨by omega, hc, ha⟩ i h1 (by omega)

/-- C16 (witness): the constructor call for a 10-line file gives `fresh10` with another time. -/
theorem construct2_zeroed_cells_witness :
    ∃ s, (construct2 0 "test_profiler.cpp" 10 0).1 = .returned s ∧
      getNumlines s = 10 ∧ (s.call_counter.length : Int) = 10 ∧
      (s.average_time.length : Int) = 10 ∧
      getSizeCallCounter s = 10 ∧ getSizeAverageTime s = 10 ∧
      (∀ c ∈ s.call_counter, c = 0) ∧ (∀ a ∈ s.average_time, a = 0) ∧
      ∀ i, 1 ≤ i → i ≤ 10 → callsAt s i = some 0 ∧ averageAt s i = some 0 :=
  construct2_zeroed_cells 0 "test_profiler.cpp" 10 0 (by decide) (by decide)

/-! ## Unreadable source, default unit -/

/-- The report part of `output` returns on a profiler with `numlines < INT_MAX` cells in each
vector. -/
theorem reportRows_returns (s : Profiler) (u : TimeUnit) (hs : Sized s)
    (hL : s.numlines < INT_MAX) : ∃ rows, reportRows s u = .returned rows := by
  obtain ⟨h0, hlc, hla⟩ := hs
  obtain ⟨cells, hrun, -, -⟩ := reportLoop_rows s u s.numlines.toNat 1
    (le_refl _) (by omega) (by omega)
  refine ⟨cells.map fun c => reportRow u c.1 c.2.1 c.2.2, ?_⟩
  unfold reportRows
  rw [if_neg (by omega), hrun]

/-- C14: when the file of the profiler cannot be opened for reading, `output(true, print, type)`
(on a profiler with `numlines < INT_MAX` cells in each vector) returns after creating the copy
`<filename>_prf<id>.h` with nothing in it: no annotated line and no footer. -/
theorem unreadable_source_gives_empty_copy (s : Profiler) (fs : Files) (print : Bool)
    (type : Int) (ctime_text : String) (hs : Sized s) (hL : s.numlines < INT_MAX)
    (hclosed : fs s.filename = none) :
    ∃ cout, output s fs true print type ctime_text
      = .returned { cout := cout, outfile := some (outfileName s, "") } := by
  obtain ⟨rows, hrows⟩ := reportRows_returns s (timeUnit type) hs hL
  unfold output
  cases print
  · simp only [Bool.false_eq_true, if_false, if_true, Outcome.bind, hclosed]
    exact ⟨_, rfl⟩
  · simp only [if_true, Outcome.bind, hclosed, hrows]
    exact ⟨_, rfl⟩

/-- C14 (witness): `busy3` with no file to read, with and without the report. -/
theorem unreadable_source_gives_empty_copy_witness :
    (∃ cout, output busy3 (fun _ => none) true true 2 "Sun Nov  1 01:48:00 2026\n"
      = .returned { cout := cout, outfile := some (outfileName busy3, "") }) ∧
      output busy3 (fun _ => none) true false 2 "Sun Nov  1 01:48:00 2026\n"
        = .returned { cout := "\nTIC annotate: f.cpp --> f.cpp_prf1.h\n",
                      outfile := some ("f.cpp_prf1.h", "") } :=
  ⟨unreadable_source_gives_empty_copy busy3 (fun _ => none) true 2 "Sun Nov  1 01:48:00 2026\n"
      (by decide) (by decide) rfl,
    by decide⟩

/-- C19: for every selector other than 0, 1 and 3, negative or above 3 included, the unit is
that of selector 2, name `Millisecs `, divisor 1000000 and 6 decimals, and `output` does exactly
what it does for selector 2. -/
theorem other_selectors_give_milliseconds (type : Int) (h0 : type ≠ 0) (h1 : type ≠ 1)
    (h3 : type ≠ 3) :
    timeUnit type = ⟨"Millisecs ", 1000000, 6⟩ ∧ timeUnit type = timeUnit 2 ∧
      ∀ (s : Profiler) (fs : Files) (annotate print : Bool) (ctime_text : String),
        output s fs annotate print type ctime_text = output s fs annotate print 2 ctime_text := by
  have hu : timeUnit type = ⟨"Millisecs ", 1000000, 6⟩ := by
    unfold timeUnit
    simp [h0, h1, h3]
  have h2 : timeUnit type = timeUnit 2 := by
    rw [hu]
    decide
  refine ⟨hu, h2, ?_⟩
  intro s fs annotate print ctime_text
  unfold output
  rw [h2]

/-- C19 (witness): selector 7, and selector -1 on the report of `ticked3`. -/
theorem other_selectors_give_milliseconds_witness :
    (timeUnit 7 = ⟨"Millisecs ", 1000000, 6⟩ ∧ timeUnit 7 = timeUnit 2 ∧
      ∀ (s : Profiler) (fs : Files) (annotate print : Bool) (ctime_text : String),
        output s fs annotate print 7 ctime_text = output s fs annotate print 2 ctime_text) ∧
      output ticked3 (fun _ => none) false true (-1) "" = .returned
        { cout := "\nTIC print: test_profiler.cpp\nLine    3 | Calls          1 | Millisecs      2.000000 |\n"
          outfile := none } :=
  ⟨other_selectors_give_milliseconds 7 (by decide) (by decide) (by decide), by decide⟩

/-! ## Bounds on the recorded average, invariants of reachable states -/

theorem setw_length (w : Nat) (t : String) : (setw w t).length = max w t.length := by
  unfold setw
  rw [String.length_append]
  simp only [String.length, List.length_replicate]
  omega

theorem spaces_length (n : Nat) (c : Char) : (String.mk (List.replicate n c)).length = n := by
  simp [String.length]

/-- Length of the comment of a line that was called, when the count fits 10 and the value 13
characters. -/
theorem touched_prefix_length (u : TimeUnit) (i calls average : Int)
    (hcw : (to_string calls).length ≤ 10) (hvw : (valueText u average).length ≤ 13) :
    ("/* " ++ columns u i calls average ++ " | */ ").length
      = 49 + max 4 (to_string i).length + u.s_name.length := by
  unfold columns valueField outints
  simp only [String.length_append, setw_length]
  have e1 : ("/* " : String).length = 3 := by decide
  have e2 : ("Line " : String).length = 5 := by decide
  have e3 : (" | " : String).length = 3 := by decide
  have e4 : ("Calls " : String).length = 6 := by decide
  have e5 : (" | */ " : String).length = 6 := by decide
  rw [e1, e2, e3, e4, e5]
  omega

/-- Length of the comment of a line that was not called. -/
theorem untouched_prefix_length (u : TimeUnit) (i : Int) :
    ("/* Line " ++ setw 4 (to_string i) ++ " |                  |  " ++
        String.mk (List.replicate (outints + u.s_name.length) ' ') ++ "| */ ").length
      = 49 + max 4 (to_string i).length + u.s_name.length := by
  unfold outints
  simp only [String.length_append, setw_length, spaces_length]
  have e1 : ("/* Line " : String).length = 8 := by decide
  have e2 : (" |                  |  " : String).length = 23 := by decide
  have e3 : ("| */ " : String).length = 5 := by decide
  rw [e1, e2, e3]
  omega

theorem long10000_last_line : callsAt long10000 10000 = some 0 := by
  unfold callsAt vecGet long10000
  rw [if_pos (by decide)]
  have e : ((10000 : Int) - 1).toNat = 9999 := by decide
  rw [e, List.get?_eq_getElem?, List.getElem?_append_right (by decide), List.getElem?_replicate]
  decide

/-- C15 (counterexample): in a 10000-line profiler whose line 3 was called once (count `1`, value
`2.000000`, both within their fields) the comment of line 3 has 63 characters and the comment of
the untouched line 10000 has 64: the line number outgrows its field of 4 and the text of line
10000 starts one column further right. -/
theorem comment_width_grows_with_line_number :
    callsAt long10000 3 = some 1 ∧ callsAt long10000 10000 = some 0 ∧
      (to_string 1).length ≤ 10 ∧ (valueText (timeUnit 2) 2000000).length ≤ 13 ∧
      (commentPrefix long10000 (timeUnit 2) 3).observe (fun p => some p.length) = some 63 ∧
      (commentPrefix long10000 (timeUnit 2) 10000).observe (fun p => some p.length)
        = some 64 := by
  refine ⟨by decide, long10000_last_line, by decide, by decide, by decide, ?_⟩
  have h := long10000_last_line
  unfold callsAt at h
  unfold commentPrefix
  simp only [h, gt_iff_lt, lt_self_iff_false, if_false, Outcome.observe]
  rw [untouched_prefix_length]
  decide

theorem line_number_fits (i : Int) (h1 : 1 ≤ i) (h2 : i ≤ 9999) :
    max 4 (to_string i).length = 4 := by
  have hlen : (to_string i).length ≤ 4 := by
    unfold to_string decimal
    rw [if_neg (by omega)]
    simp only [String.length]
    unfold Nat.toDigits
    exact Nat.toDigitsCore_length 10 (by decide) (i.toNat + 1) i.toNat 4 (by omega) (by decide)
  omega

/-- C15 (amended): the comment written for an untouched line `j` (count not positive) has the
same length as the comment written for a touched line `i`, for every unit, provided the call
count renders in at most 10 characters, the value in at most 13 characters, and the two line
numbers are the same or both lie in 1 to 9999, where they fit the field of 4; the length is then
49 plus the width of the line number plus the length of the unit name, so in a file of at most
9999 lines the line text starts at the same column on every line. -/
theorem comment_prefixes_same_length (s s' : Profiler) (u : TimeUnit) (i j c a c' : Int)
    (hc : callsAt s i = some c) (hpos : 0 < c) (ha : averageAt s i = some a)
    (hcw : (to_string c).length ≤ 10) (hvw : (valueText u a).length ≤ 13)
    (hc' : callsAt s' j = some c') (hzero : c' ≤ 0)
    (hij : i = j ∨ (1 ≤ i ∧ i ≤ 9999 ∧ 1 ≤ j ∧ j ≤ 9999)) :
    ∃ p q, commentPrefix s u i = .returned p ∧ commentPrefix s' u j = .returned q ∧
      p.length = q.length ∧
      p.length = 49 + max 4 (to_string i).length + u.s_name.length := by
  have hw : max 4 (to_string i).length = max 4 (to_string j).length := by
    rcases hij with rfl | ⟨h1, h2, h3, h4⟩
    · rfl
    · rw [line_number_fits i h1 h2, line_number_fits j h3 h4]
  unfold callsAt at hc hc'
  unfold averageAt at ha
  refine ⟨"/* " ++ columns u i c a ++ " | */ ",
    "/* Line " ++ setw 4 (to_string j) ++ " |                  |  " ++
      String.mk (List.replicate (outints + u.s_name.length) ' ') ++ "| */ ", ?_, ?_, ?_, ?_⟩
  · unfold commentPrefix
    simp only [hc, ha, gt_iff_lt, hpos, if_true]
  · unfold commentPrefix
    simp only [hc', gt_iff_lt, if_neg (show ¬ 0 < c' by omega)]
  · rw [touched_prefix_length u i c a hcw hvw, untouched_prefix_length, hw]
  · exact touched_prefix_length u i c a hcw hvw

/-- C15 (witness): in `busy3` line 1 was called and line 3 was not; both comments have 63
characters in milliseconds. -/
theorem comment_prefixes_same_length_witness :
    (∃ p q, commentPrefix busy3 (timeUnit 2) 1 = .returned p ∧
      commentPrefix busy3 (timeUnit 2) 3 = .returned q ∧ p.length = q.length ∧
      p.length = 49 + max 4 (to_string 1).length + (timeUnit 2).s_name.length) ∧
      commentPrefix busy3 (timeUnit 2) 1
        = .returned "/* Line    1 | Calls          1 | Millisecs      0.000005 | */ " ∧
      commentPrefix busy3 (timeUnit 2) 3
        = .returned "/* Line    3 |                  |                         | */ " :=
  ⟨comment_prefixes_same_length busy3 busy3 (timeUnit 2) 1 3 1 5 0 (by decide) (by decide)
      (by decide) (by decide) (by decide) (by decide) (by decide) (by decide),
    by decide, by decide⟩

/-! ## The report on the console stream -/

end SimpleProfiler
